import Mathlib

/-!
Verification of the SR-IOV forwarder token pool (`pkg/sriov/token/pool.go`)
and of the token client chain element (`pkg/networkservice/chains/forwarder`,
`multitoken` element).

The Go code keeps a set of mutable `token` records that are simultaneously
reachable through three indices (`tokens` by id, `tokensByNames` by name, and
`closedTokens` by the id of the in-use token that closed them).  We embed this
with an arena: `Pool.store` is the list of token records in creation order and
the indices hold arena positions (handles).  Go maps are embedded as
association lists with map semantics (insert overwrites the key, delete
removes it); map iteration order is never observable in the embedded
operations, except for the caller-supplied map passed to `Restore`, which we
take as a list of entries.
-/

/-- The four token states of `pool.go` (`free`, `allocated`, `inUse`, `closed`). -/
inductive TState where
  | free
  | allocated
  | inUse
  | closed
deriving DecidableEq, Repr

/-- A token record: opaque `id`, `name` of the form `serviceDomain/capability`,
and the lifecycle `state`. -/
structure Token where
  id : String
  name : String
  state : TState
deriving DecidableEq, Repr

/-- Errors returned by the pool, one constructor per `errors.Errorf` site in
`pool.go`.  The spec's `InvalidId` is `unknownId`, its `BadState` covers
`badState` (from `Use`) and `notInUse` (from `stopUsing`), its `ClosedToken`
is `closedToken`, and its `AlreadyDirty` is `alreadyAccessed`. -/
inductive PoolErr where
  | unknownId
  | badState (s : TState)
  | closedToken
  | notInUse
  | alreadyAccessed
deriving DecidableEq, Repr

/-- Association-list lookup with map semantics (first entry of the key wins). -/
def lookupA {α : Type} : List (String × α) → String → Option α
  | [], _ => none
  | (k, v) :: m, k' => if k = k' then some v else lookupA m k'

/-- Association-list delete: removes every entry of the key (on key-unique
lists this is exactly Go's `delete`). -/
def eraseA {α : Type} : List (String × α) → String → List (String × α)
  | [], _ => []
  | (k, v) :: m, k' => if k = k' then eraseA m k' else (k, v) :: eraseA m k'

/-- Association-list insert with map semantics: the key ends up bound exactly
once, to the new value. -/
def insertA {α : Type} (m : List (String × α)) (k : String) (v : α) : List (String × α) :=
  (k, v) :: eraseA m k

/-- The pool state of `pool.go`.  `store` is the arena of token records;
`tokens`, `tokensByNames` and `closedTokens` are the three indices, holding
arena handles where the Go code holds `*token` pointers.  Listeners are
zero-argument callbacks fired asynchronously; only their number is
observable in our model. -/
structure Pool where
  store : List Token
  tokens : List (String × Nat)
  tokensByNames : List (String × List Nat)
  closedTokens : List (String × List Nat)
  listeners : Nat
  dirty : Bool
deriving DecidableEq, Repr

/-- `p.find` of `pool.go`: look the id up in the `tokens` index and
dereference the handle.  (In Go the map holds the pointer itself; a handle
that is out of range can only arise in malformed pools and is reported as an
unknown id.) -/
def Pool.findTok (p : Pool) (id : String) : Option (Nat × Token) :=
  match lookupA p.tokens id with
  | none => none
  | some h => (p.store[h]?).map (fun tk => (h, tk))

/-- Overwrite the state of the token record at handle `h` (the Go code's
`tok.state = s` through the shared pointer). -/
def Pool.setState (p : Pool) (h : Nat) (s : TState) : Pool :=
  match p.store[h]? with
  | none => p
  | some tk => { p with store := p.store.set h { tk with state := s } }

/-- The state of the token at a handle, if any. -/
def Pool.stateAt (p : Pool) (h : Nat) : Option TState :=
  (p.store[h]?).map Token.state

/-- `p.findToClose(name)` of `pool.go`: scan `tokensByNames[name]` in
insertion order for the first `free` token; failing that, scan again for the
first `allocated` one. -/
def Pool.findToClose (p : Pool) (name : String) : Option Nat :=
  match ((lookupA p.tokensByNames name).getD []).find? (fun h => p.stateAt h = some .free) with
  | some h => some h
  | none =>
    ((lookupA p.tokensByNames name).getD []).find? (fun h => p.stateAt h = some .allocated)

/-- `p.closedTokens[tok.id] = append(p.closedTokens[tok.id], tokToClose)`. -/
def Pool.pushClosed (p : Pool) (id : String) (h : Nat) : Pool :=
  { p with closedTokens := insertA p.closedTokens id (((lookupA p.closedTokens id).getD []) ++ [h]) }

/-- The closure list recorded for an id (empty when no entry exists). -/
def closedListOf (p : Pool) (id : String) : List Nat :=
  (lookupA p.closedTokens id).getD []

/-- The loop body of `Use`: for every name in `names` other than the used
token's own name, close the sibling chosen by `findToClose` (if any) and
record it under the used token's id. -/
def useLoop (tokName tokId : String) : List String → Pool → Pool
  | [], p => p
  | n :: ns, p =>
    if n = tokName then useLoop tokName tokId ns p
    else
      match p.findToClose n with
      | none => useLoop tokName tokId ns p
      | some h => useLoop tokName tokId ns ((p.setState h .closed).pushClosed tokId h)

/-- `Use(id, names)` of `pool.go`: sets `dirty`, requires the token to be
neither `inUse` nor `closed`, marks it `inUse` and runs the closing loop. -/
def Pool.UseOp (p : Pool) (id : String) (names : List String) : Pool × Option PoolErr :=
  match Pool.findTok { p with dirty := true } id with
  | none => ({ p with dirty := true }, some .unknownId)
  | some (h, tk) =>
    if tk.state = .inUse ∨ tk.state = .closed then
      ({ p with dirty := true }, some (.badState tk.state))
    else (useLoop tk.name tk.id names (Pool.setState { p with dirty := true } h .inUse), none)

/-- Set every token in the list to `free` (the unwind loop of `stopUsing`). -/
def freeAll : Pool → List Nat → Pool
  | p, [] => p
  | p, h :: hs => freeAll (p.setState h .free) hs

/-- The private `p.stopUsing(id)` of `pool.go` (does not touch `dirty`):
requires `inUse`, marks the token `allocated`, frees every token recorded in
`closedTokens[tok.id]` and deletes that entry. -/
def Pool.stopUsing (p : Pool) (id : String) : Pool × Option PoolErr :=
  match p.findTok id with
  | none => (p, some .unknownId)
  | some (h, tk) =>
    if tk.state = .inUse then
      let p1 := p.setState h .allocated
      let p2 := freeAll p1 (closedListOf p1 tk.id)
      ({ p2 with closedTokens := eraseA p2.closedTokens tk.id }, none)
    else (p, some .notInUse)

/-- `StopUsing(id)`: sets `dirty` and calls the private `stopUsing`. -/
def Pool.StopUsingOp (p : Pool) (id : String) : Pool × Option PoolErr :=
  Pool.stopUsing { p with dirty := true } id

/-- `Allocate(id)` of `pool.go`: `free`/`allocated` become `allocated`,
`inUse` is routed through `stopUsing`, `closed` fails. -/
def Pool.AllocateOp (p : Pool) (id : String) : Pool × Option PoolErr :=
  match Pool.findTok { p with dirty := true } id with
  | none => ({ p with dirty := true }, some .unknownId)
  | some (h, tk) =>
    if tk.state = .inUse then Pool.stopUsing { p with dirty := true } id
    else if tk.state = .closed then ({ p with dirty := true }, some .closedToken)
    else (Pool.setState { p with dirty := true } h .allocated, none)

/-- `Free(id)` of `pool.go`: always succeeds on a known id; `inUse` is first
unwound through `stopUsing` (its error, impossible there, is discarded as in
the Go code), `closed` is returned unchanged, everything else becomes
`free`. -/
def Pool.FreeOp (p : Pool) (id : String) : Pool × Option PoolErr :=
  match Pool.findTok { p with dirty := true } id with
  | none => ({ p with dirty := true }, some .unknownId)
  | some (h, tk) =>
    if tk.state = .inUse then
      ((Pool.stopUsing { p with dirty := true } id).1.setState h .free, none)
    else if tk.state = .closed then ({ p with dirty := true }, none)
    else (Pool.setState { p with dirty := true } h .free, none)

/-- `Find(id)`: sets `dirty` and returns the token's name. -/
def Pool.FindOp (p : Pool) (id : String) : Pool × Option String :=
  match Pool.findTok { p with dirty := true } id with
  | none => ({ p with dirty := true }, none)
  | some (_, tk) => ({ p with dirty := true }, some tk.name)

/-- `Tokens()`: sets `dirty` and returns the availability snapshot
(`available = state ≠ closed`). -/
def Pool.TokensOp (p : Pool) : Pool × List (String × List (String × Bool)) :=
  ({ p with dirty := true },
    p.tokensByNames.map (fun e =>
      (e.1, e.2.map (fun h =>
        match p.store[h]? with
        | some tk => (tk.id, decide (tk.state ≠ .closed))
        | none => ("", false)))))

/-- The id rewrite of one token inside `Restore`: delete the old id from the
`tokens` index, overwrite the record's id and state, reinsert under the new
id. -/
def Pool.rename (p : Pool) (h : Nat) (newId : String) : Pool :=
  match p.store[h]? with
  | none => p
  | some tk =>
    { p with
      store := p.store.set h { tk with id := newId, state := .allocated },
      tokens := insertA (eraseA p.tokens tk.id) newId h }

/-- The inner loop of `Restore` for one name: rewrite the first
`min (ids.length) (hs.length)` tokens positionally. -/
def restoreEntry : Pool → List String → List Nat → Pool
  | p, id :: ids, h :: hs => restoreEntry (p.rename h id) ids hs
  | p, _, _ => p

/-- The outer loop of `Restore` over the caller-supplied map (names missing
from `tokensByNames` are skipped). -/
def restoreLoop : Pool → List (String × List String) → Pool
  | p, [] => p
  | p, (name, ids) :: rest =>
    match lookupA p.tokensByNames name with
    | none => restoreLoop p rest
    | some hs => restoreLoop (restoreEntry p ids hs) rest

/-- `Restore(tokens)` of `pool.go`: fails if the pool is dirty, otherwise
sets `dirty` and rewrites ids. -/
def Pool.RestoreOp (p : Pool) (m : List (String × List String)) : Pool × Option PoolErr :=
  if p.dirty then (p, some .alreadyAccessed)
  else (restoreLoop { p with dirty := true } m, none)

/-- `AddListener(fn)`: appends a listener and touches nothing else
(in particular it does not set `dirty`). -/
def Pool.addListener (p : Pool) : Pool :=
  { p with listeners := p.listeners + 1 }

/-- All handles stored across all `closedTokens` lists. -/
def closedHandles (p : Pool) : List Nat :=
  (p.closedTokens.map Prod.snd).flatten

/-- The `tokens` index is coherent: every entry points into the arena, at a
record carrying exactly the entry's id. -/
def MapOK (p : Pool) : Prop :=
  ∀ e ∈ p.tokens, (p.store[e.2]?).map Token.id = some e.1

/-- Every `closedTokens` entry is owned by a token that is currently `inUse`
under that id, and every handle it records is `closed`. -/
def ClosedOK (p : Pool) : Prop :=
  ∀ e ∈ p.closedTokens,
    ((lookupA p.tokens e.1).bind (fun h => p.store[h]?)).map Token.state = some .inUse ∧
    ∀ h ∈ e.2, p.stateAt h = some .closed

/-- Every `closed` token is recorded in exactly one closure list: the
recorded handles are pairwise distinct and every closed token appears. -/
def OnceOK (p : Pool) : Prop :=
  (closedHandles p).Nodup ∧
  ∀ h ∈ List.range p.store.length, p.stateAt h = some .closed → h ∈ closedHandles p

/-- The keys of `closedTokens` are pairwise distinct (Go map keys). -/
def ClosedKeysOK (p : Pool) : Prop :=
  (p.closedTokens.map Prod.fst).Nodup

/-- A pool that is not dirty has never run a state-changing operation:
no closure entries, every token still `free`. -/
def CleanOK (p : Pool) : Prop :=
  p.dirty = false →
    p.closedTokens = [] ∧ ∀ h ∈ List.range p.store.length, p.stateAt h = some .free

/-- The inductive well-formedness invariant of the pool. -/
def WF (p : Pool) : Prop :=
  MapOK p ∧ ClosedOK p ∧ OnceOK p ∧ ClosedKeysOK p ∧ CleanOK p

/-- A pool as built by `NewPool`: fresh (not dirty, no closures, all tokens
`free`) with a coherent id index.  The concrete ids minted by `NewTokenID`
and the name layout from the config are arbitrary here. -/
def Initial (p : Pool) : Prop :=
  p.dirty = false ∧ p.closedTokens = [] ∧
  (∀ h ∈ List.range p.store.length, p.stateAt h = some .free) ∧
  MapOK p

/-- One public pool operation (the state component of each call). -/
inductive Step : Pool → Pool → Prop where
  | restore (p : Pool) (m : List (String × List String)) : Step p (p.RestoreOp m).1
  | tokens (p : Pool) : Step p p.TokensOp.1
  | findOp (p : Pool) (id : String) : Step p (p.FindOp id).1
  | alloc (p : Pool) (id : String) : Step p (p.AllocateOp id).1
  | freeOp (p : Pool) (id : String) : Step p (p.FreeOp id).1
  | use (p : Pool) (id : String) (names : List String) : Step p (p.UseOp id names).1
  | stop (p : Pool) (id : String) : Step p (p.StopUsingOp id).1
  | addL (p : Pool) : Step p p.addListener

/-- Pool states reachable by any sequence of public operations after
construction. -/
inductive Reachable : Pool → Prop where
  | init (p : Pool) : Initial p → Reachable p
  | step (p q : Pool) : Reachable p → Step p q → Reachable q

theorem lookupA_insertA_self {α : Type} (m : List (String × α)) (k : String) (v : α) :
    lookupA (insertA m k v) k = some v := by
  simp [insertA, lookupA]

theorem lookupA_insertA_ne {α : Type} (m : List (String × α)) {k k' : String} (v : α)
    (h : k ≠ k') : lookupA (insertA m k v) k' = lookupA m k' := by
  induction m with
  | nil => simp [insertA, lookupA, eraseA, h]
  | cons e m ih =>
    obtain ⟨ke, ve⟩ := e
    by_cases hk : ke = k
    · subst hk
      simpa [insertA, lookupA, eraseA, h] using ih
    · by_cases hk' : ke = k'
      · subst hk'
        simp [insertA, lookupA, eraseA, h, hk]
      · simpa [insertA, lookupA, eraseA, h, hk, hk'] using ih

theorem lookupA_eraseA_self {α : Type} (m : List (String × α)) (k : String) :
    lookupA (eraseA m k) k = none := by
  induction m with
  | nil => simp [eraseA, lookupA]
  | cons e m ih =>
    obtain ⟨ke, ve⟩ := e
    by_cases hk : ke = k
    · simpa [eraseA, hk] using ih
    · simpa [eraseA, lookupA, hk] using ih

theorem lookupA_eraseA_ne {α : Type} (m : List (String × α)) {k k' : String}
    (h : k ≠ k') : lookupA (eraseA m k) k' = lookupA m k' := by
  induction m with
  | nil => simp [eraseA]
  | cons e m ih =>
    obtain ⟨ke, ve⟩ := e
    by_cases hk : ke = k
    · subst hk
      simpa [eraseA, lookupA, h] using ih
    · by_cases hk' : ke = k'
      · subst hk'
        simp [eraseA, lookupA, hk]
      · simpa [eraseA, lookupA, hk, hk'] using ih

theorem eraseA_sublist {α : Type} (m : List (String × α)) (k : String) :
    (eraseA m k).Sublist m := by
  induction m with
  | nil => simp [eraseA]
  | cons e m ih =>
    obtain ⟨ke, ve⟩ := e
    by_cases hk : ke = k
    · simp only [eraseA, if_pos hk]
      exact ih.trans (List.sublist_cons_self _ _)
    · simp only [eraseA, if_neg hk]
      exact ih.cons₂ _

theorem mem_eraseA {α : Type} {m : List (String × α)} {k : String} {e : String × α} :
    e ∈ eraseA m k → e ∈ m ∧ e.1 ≠ k := by
  induction m with
  | nil => simp [eraseA]
  | cons e' m ih =>
    obtain ⟨ke, ve⟩ := e'
    by_cases hk : ke = k
    · intro h
      simp only [eraseA, if_pos hk] at h
      exact ⟨List.mem_cons_of_mem _ (ih h).1, (ih h).2⟩
    · intro h
      simp only [eraseA, if_neg hk] at h
      rcases List.mem_cons.mp h with h | h
      · subst h; exact ⟨List.mem_cons_self _ _, hk⟩
      · exact ⟨List.mem_cons_of_mem _ (ih h).1, (ih h).2⟩

theorem mem_eraseA_of_mem {α : Type} {m : List (String × α)} {k : String} {e : String × α}
    (hne : e.1 ≠ k) : e ∈ m → e ∈ eraseA m k := by
  induction m with
  | nil => simp
  | cons e' m ih =>
    obtain ⟨ke, ve⟩ := e'
    intro h
    rcases List.mem_cons.mp h with h | h
    · subst h
      simp only [eraseA, if_neg hne]
      exact List.mem_cons_self _ _
    · by_cases hk : ke = k
      · simp only [eraseA, if_pos hk]
        exact ih h
      · simp only [eraseA, if_neg hk]
        exact List.mem_cons_of_mem _ (ih h)

theorem eraseA_of_lookupA_none {α : Type} {m : List (String × α)} {k : String} :
    lookupA m k = none → eraseA m k = m := by
  induction m with
  | nil => simp [eraseA]
  | cons e m ih =>
    obtain ⟨ke, ve⟩ := e
    intro h
    by_cases hk : ke = k
    · simp [lookupA, hk] at h
    · simp only [lookupA, if_neg hk] at h
      simp [eraseA, hk, ih h]

theorem lookupA_eq_some_mem {α : Type} {m : List (String × α)} {k : String} {v : α} :
    lookupA m k = some v → (k, v) ∈ m := by
  induction m with
  | nil => simp [lookupA]
  | cons e m ih =>
    obtain ⟨ke, ve⟩ := e
    intro h
    by_cases hk : ke = k
    · subst hk
      simp [lookupA] at h
      subst h; exact List.mem_cons_self _ _
    · simp only [lookupA, if_neg hk] at h
      exact List.mem_cons_of_mem _ (ih h)

theorem keys_eraseA_nodup {α : Type} {m : List (String × α)} {k : String}
    (h : (m.map Prod.fst).Nodup) : ((eraseA m k).map Prod.fst).Nodup :=
  ((eraseA_sublist m k).map Prod.fst).nodup h

theorem not_mem_keys_eraseA {α : Type} (m : List (String × α)) (k : String) :
    k ∉ (eraseA m k).map Prod.fst := by
  intro hmem
  rcases List.mem_map.mp hmem with ⟨e, he, hk⟩
  exact (mem_eraseA he).2 hk

theorem lookupA_none_of_not_mem_keys {α : Type} {m : List (String × α)} {k : String}
    (h : k ∉ m.map Prod.fst) : lookupA m k = none := by
  induction m with
  | nil => rfl
  | cons e m ih =>
    obtain ⟨ke, ve⟩ := e
    simp only [List.map_cons, List.mem_cons] at h
    push_neg at h
    show (if ke = k then some ve else lookupA m k) = none
    rw [if_neg (Ne.symm h.1)]
    exact ih h.2

theorem flatten_eraseA_perm {α : Type} {m : List (String × List α)} {k : String} {L : List α}
    (hkeys : (m.map Prod.fst).Nodup) (h : lookupA m k = some L) :
    (m.map Prod.snd).flatten.Perm (L ++ ((eraseA m k).map Prod.snd).flatten) := by
  induction m with
  | nil => simp [lookupA] at h
  | cons e m ih =>
    obtain ⟨ke, ve⟩ := e
    simp only [List.map_cons, List.nodup_cons] at hkeys
    by_cases hk : ke = k
    · subst hk
      have h2 : ve = L := by simpa [lookupA] using h
      rw [← h2]
      have hnone : lookupA m ke = none :=
        lookupA_none_of_not_mem_keys hkeys.1
      rw [show eraseA ((ke, ve) :: m) ke = eraseA m ke by simp [eraseA],
        eraseA_of_lookupA_none hnone]
      simp
    · simp only [lookupA, if_neg hk] at h
      have := ih hkeys.2 h
      simp only [eraseA, if_neg hk, List.map_cons, List.flatten_cons]
      calc ve ++ (m.map Prod.snd).flatten
          |>.Perm (ve ++ (L ++ ((eraseA m k).map Prod.snd).flatten)) := this.append_left ve
      _ |>.Perm (L ++ (ve ++ ((eraseA m k).map Prod.snd).flatten)) := by
          rw [← List.append_assoc, ← List.append_assoc]
          exact List.perm_append_comm.append_right _

theorem setState_store_length (p : Pool) (h : Nat) (s : TState) :
    (p.setState h s).store.length = p.store.length := by
  unfold Pool.setState
  cases hg : p.store[h]? <;> simp

theorem setState_tokens (p : Pool) (h : Nat) (s : TState) :
    (p.setState h s).tokens = p.tokens := by
  unfold Pool.setState
  cases hg : p.store[h]? <;> simp

theorem setState_tokensByNames (p : Pool) (h : Nat) (s : TState) :
    (p.setState h s).tokensByNames = p.tokensByNames := by
  unfold Pool.setState
  cases hg : p.store[h]? <;> simp

theorem setState_closedTokens (p : Pool) (h : Nat) (s : TState) :
    (p.setState h s).closedTokens = p.closedTokens := by
  unfold Pool.setState
  cases hg : p.store[h]? <;> simp

theorem setState_dirty (p : Pool) (h : Nat) (s : TState) :
    (p.setState h s).dirty = p.dirty := by
  unfold Pool.setState
  cases hg : p.store[h]? <;> simp

theorem setState_listeners (p : Pool) (h : Nat) (s : TState) :
    (p.setState h s).listeners = p.listeners := by
  unfold Pool.setState
  cases hg : p.store[h]? <;> simp

theorem getElem_setState_self {p : Pool} {h : Nat} {tk : Token} (s : TState)
    (hg : p.store[h]? = some tk) :
    (p.setState h s).store[h]? = some { tk with state := s } := by
  unfold Pool.setState
  rw [hg]
  have hlt : h < p.store.length := by
    rcases List.getElem?_eq_some_iff.mp hg with ⟨hlt, _⟩
    exact hlt
  simp [List.getElem?_set, hlt]

theorem getElem_setState_ne (p : Pool) {h h' : Nat} (s : TState) (hne : h' ≠ h) :
    (p.setState h s).store[h']? = p.store[h']? := by
  unfold Pool.setState
  cases hg : p.store[h]? <;> simp [List.getElem?_set_ne (Ne.symm hne)]

theorem pushClosed_store (p : Pool) (id : String) (h : Nat) :
    (p.pushClosed id h).store = p.store := rfl

theorem pushClosed_tokens (p : Pool) (id : String) (h : Nat) :
    (p.pushClosed id h).tokens = p.tokens := rfl

theorem pushClosed_tokensByNames (p : Pool) (id : String) (h : Nat) :
    (p.pushClosed id h).tokensByNames = p.tokensByNames := rfl

theorem pushClosed_dirty (p : Pool) (id : String) (h : Nat) :
    (p.pushClosed id h).dirty = p.dirty := rfl

theorem freeAll_tokens (L : List Nat) (p : Pool) : (freeAll p L).tokens = p.tokens := by
  induction L generalizing p with
  | nil => rfl
  | cons h L ih => simp [freeAll, ih, setState_tokens]

theorem freeAll_tokensByNames (L : List Nat) (p : Pool) :
    (freeAll p L).tokensByNames = p.tokensByNames := by
  induction L generalizing p with
  | nil => rfl
  | cons h L ih => simp [freeAll, ih, setState_tokensByNames]

theorem freeAll_closedTokens (L : List Nat) (p : Pool) :
    (freeAll p L).closedTokens = p.closedTokens := by
  induction L generalizing p with
  | nil => rfl
  | cons h L ih => simp [freeAll, ih, setState_closedTokens]

theorem freeAll_dirty (L : List Nat) (p : Pool) : (freeAll p L).dirty = p.dirty := by
  induction L generalizing p with
  | nil => rfl
  | cons h L ih => simp [freeAll, ih, setState_dirty]

theorem freeAll_store_length (L : List Nat) (p : Pool) :
    (freeAll p L).store.length = p.store.length := by
  induction L generalizing p with
  | nil => rfl
  | cons h L ih => simp [freeAll, ih, setState_store_length]

theorem getElem_freeAll_notMem {L : List Nat} {h' : Nat} (p : Pool) (hn : h' ∉ L) :
    (freeAll p L).store[h']? = p.store[h']? := by
  induction L generalizing p with
  | nil => rfl
  | cons h L ih =>
    simp only [List.mem_cons] at hn
    push_neg at hn
    rw [freeAll, ih _ hn.2, getElem_setState_ne _ _ hn.1]

theorem isSome_setState (p : Pool) (h h' : Nat) (s : TState) :
    ((p.setState h s).store[h']?).isSome = (p.store[h']?).isSome := by
  by_cases hh : h' = h
  · subst hh
    cases hg : p.store[h']? with
    | none =>
      unfold Pool.setState
      rw [hg]
      simp [hg]
    | some tk => simp [getElem_setState_self s hg, hg]
  · rw [getElem_setState_ne _ _ hh]

theorem stateAt_setState_self {p : Pool} {h : Nat} (s : TState)
    (hg : (p.store[h]?).isSome = true) : (p.setState h s).stateAt h = some s := by
  rcases Option.isSome_iff_exists.mp hg with ⟨tk, htk⟩
  rw [Pool.stateAt, getElem_setState_self s htk]
  rfl

theorem stateAt_freeAll_mem {L : List Nat} {h' : Nat} (p : Pool)
    (hm : h' ∈ L) (hg : (p.store[h']?).isSome = true) :
    (freeAll p L).stateAt h' = some .free := by
  induction L generalizing p with
  | nil => simp at hm
  | cons h L ih =>
    rcases List.mem_cons.mp hm with hh | hh
    · subst hh
      by_cases hrest : h' ∈ L
      · exact ih _ hrest (by rw [isSome_setState]; exact hg)
      · rw [freeAll, Pool.stateAt, getElem_freeAll_notMem _ hrest,
          ← Pool.stateAt, stateAt_setState_self .free hg]
    · by_cases hhead : h' = h
      · subst hhead
        by_cases hrest : h' ∈ L
        · exact ih _ hrest (by rw [isSome_setState]; exact hg)
        · rw [freeAll, Pool.stateAt, getElem_freeAll_notMem _ hrest,
            ← Pool.stateAt, stateAt_setState_self .free hg]
      · exact ih _ hh (by rw [isSome_setState]; exact hg)

theorem idAt_setState (p : Pool) (h h' : Nat) (s : TState) :
    ((p.setState h s).store[h']?).map Token.id = (p.store[h']?).map Token.id := by
  by_cases hh : h' = h
  · subst hh
    cases hg : p.store[h']? with
    | none =>
      unfold Pool.setState
      rw [hg]
      simp [hg]
    | some tk => simp [getElem_setState_self s hg, hg]
  · rw [getElem_setState_ne _ _ hh]

theorem nameAt_setState (p : Pool) (h h' : Nat) (s : TState) :
    ((p.setState h s).store[h']?).map Token.name = (p.store[h']?).map Token.name := by
  by_cases hh : h' = h
  · subst hh
    cases hg : p.store[h']? with
    | none =>
      unfold Pool.setState
      rw [hg]
      simp [hg]
    | some tk => simp [getElem_setState_self s hg, hg]
  · rw [getElem_setState_ne _ _ hh]

theorem idAt_freeAll (L : List Nat) (p : Pool) (h' : Nat) :
    ((freeAll p L).store[h']?).map Token.id = (p.store[h']?).map Token.id := by
  induction L generalizing p with
  | nil => rfl
  | cons h L ih => rw [freeAll, ih, idAt_setState]

theorem stateAt_setState_ne (p : Pool) {h h' : Nat} (s : TState) (hne : h' ≠ h) :
    (p.setState h s).stateAt h' = p.stateAt h' := by
  rw [Pool.stateAt, getElem_setState_ne _ _ hne, Pool.stateAt]

theorem stateAt_freeAll_notMem {L : List Nat} {h' : Nat} (p : Pool) (hn : h' ∉ L) :
    (freeAll p L).stateAt h' = p.stateAt h' := by
  rw [Pool.stateAt, getElem_freeAll_notMem _ hn, Pool.stateAt]

theorem wf_dirty {p : Pool} (hwf : WF p) : WF { p with dirty := true } := by
  obtain ⟨h1, h2, h3, h4, _⟩ := hwf
  refine ⟨?_, ?_, ?_, ?_, ?_⟩
  · intro e he
    exact h1 e he
  · intro e he
    exact h2 e he
  · exact h3
  · exact h4
  · intro hd
    simp at hd

theorem wf_setState_safe {p : Pool} {h : Nat} {tk : Token} {s : TState}
    (hwf : WF p) (hd : p.dirty = true) (hg : p.store[h]? = some tk)
    (hnc : tk.state ≠ .closed) (hni : tk.state ≠ .inUse) (hsc : s ≠ .closed) :
    WF (p.setState h s) := by
  obtain ⟨hmap, hcl, honce, hkeys, _⟩ := hwf
  refine ⟨?_, ?_, ?_, ?_, ?_⟩
  · intro e he
    rw [setState_tokens] at he
    rw [idAt_setState]
    exact hmap e he
  · intro e he
    rw [setState_closedTokens] at he
    obtain ⟨hown, hmem⟩ := hcl e he
    constructor
    · rw [setState_tokens]
      cases hlk : lookupA p.tokens e.1 with
      | none => rw [hlk] at hown; simp at hown
      | some h0 =>
        rw [hlk] at hown
        simp only [Option.some_bind] at hown ⊢
        by_cases hh : h0 = h
        · subst hh
          rw [hg] at hown
          simp at hown
          exact absurd hown hni
        · rw [getElem_setState_ne _ _ hh]
          exact hown
    · intro h' hm
      by_cases hh : h' = h
      · subst hh
        have := hmem h' hm
        rw [Pool.stateAt, hg] at this
        simp at this
        exact absurd this hnc
      · rw [stateAt_setState_ne _ _ hh]
        exact hmem h' hm
  · obtain ⟨hnd, hcov⟩ := honce
    constructor
    · show ((p.setState h s).closedTokens.map Prod.snd).flatten.Nodup
      rw [setState_closedTokens]
      exact hnd
    · intro h' hr hst
      rw [List.mem_range, setState_store_length] at hr
      show h' ∈ ((p.setState h s).closedTokens.map Prod.snd).flatten
      rw [setState_closedTokens]
      by_cases hh : h' = h
      · subst hh
        rw [Pool.stateAt, getElem_setState_self s hg] at hst
        simp at hst
        exact absurd hst hsc
      · rw [stateAt_setState_ne _ _ hh] at hst
        exact hcov h' (List.mem_range.mpr hr) hst
  · show ((p.setState h s).closedTokens.map Prod.fst).Nodup
    rw [setState_closedTokens]
    exact hkeys
  · intro hd'
    rw [setState_dirty] at hd'
    rw [hd] at hd'
    simp at hd'

theorem findTok_eq_some {p : Pool} {id : String} {h : Nat} {tk : Token}
    (hf : p.findTok id = some (h, tk)) :
    lookupA p.tokens id = some h ∧ p.store[h]? = some tk := by
  unfold Pool.findTok at hf
  cases hlk : lookupA p.tokens id with
  | none => rw [hlk] at hf; simp at hf
  | some h0 =>
    rw [hlk] at hf
    simp only [Option.map_eq_some'] at hf
    rcases hf with ⟨tk0, hg, heq⟩
    rw [Prod.mk.injEq] at heq
    obtain ⟨rfl, rfl⟩ := heq
    exact ⟨rfl, hg⟩

theorem tokenId_of_findTok {p : Pool} {id : String} {h : Nat} {tk : Token}
    (hmap : MapOK p) (hf : p.findTok id = some (h, tk)) : tk.id = id := by
  obtain ⟨hlk, hg⟩ := findTok_eq_some hf
  have := hmap (id, h) (lookupA_eq_some_mem hlk)
  rw [hg] at this
  simpa using this

theorem mem_flatten_of_mem_entry {m : List (String × List Nat)} {e : String × List Nat}
    {x : Nat} (he : e ∈ m) (hx : x ∈ e.2) : x ∈ (m.map Prod.snd).flatten :=
  List.mem_flatten.mpr ⟨e.2, List.mem_map.mpr ⟨e, he, rfl⟩, hx⟩

theorem mem_closedListOf {p : Pool} {id : String} {h' : Nat}
    (hm : h' ∈ closedListOf p id) :
    lookupA p.closedTokens id = some (closedListOf p id) := by
  unfold closedListOf at hm ⊢
  cases hlk : lookupA p.closedTokens id with
  | none => rw [hlk] at hm; simp at hm
  | some L => simp

theorem closedListOf_states {p : Pool} {id : String} (hwf : WF p) :
    ∀ h' ∈ closedListOf p id, p.stateAt h' = some .closed := by
  intro h' hm
  have hlk := mem_closedListOf hm
  have hment := lookupA_eq_some_mem hlk
  exact ((hwf.2.1) _ hment).2 h' hm

theorem wf_stopUsing {p : Pool} (id : String) (hwf : WF p) (hd : p.dirty = true) :
    WF (p.stopUsing id).1 := by
  unfold Pool.stopUsing
  cases hf : p.findTok id with
  | none => exact hwf
  | some pr =>
    obtain ⟨h, tk⟩ := pr
    by_cases hs : tk.state = .inUse
    · simp only [if_pos hs]
      obtain ⟨hlk, hg⟩ := findTok_eq_some hf
      have hid : tk.id = id := tokenId_of_findTok hwf.1 hf
      obtain ⟨hmap, hcl, ⟨hnd, hcov⟩, hkeys, _⟩ := hwf
      set p1 := p.setState h .allocated with hp1
      have hctp1 : p1.closedTokens = p.closedTokens := setState_closedTokens p h .allocated
      have hLrw : closedListOf p1 tk.id = closedListOf p tk.id := by
        unfold closedListOf
        rw [hctp1]
      set L := closedListOf p tk.id with hL
      -- every recorded handle is closed in p, and h itself is not recorded
      have hLclosed : ∀ h' ∈ L, p.stateAt h' = some .closed :=
        closedListOf_states ⟨hmap, hcl, ⟨hnd, hcov⟩, hkeys, fun hdd => by rw [hd] at hdd; simp at hdd⟩
      have hhL : h ∉ L := by
        intro hmem
        have := hLclosed h hmem
        rw [Pool.stateAt, hg] at this
        simp [hs] at this
      set p2 := freeAll p1 (closedListOf p1 tk.id) with hp2
      have htok2 : p2.tokens = p.tokens := by
        rw [hp2, freeAll_tokens, setState_tokens]
      have hct2 : p2.closedTokens = p.closedTokens := by
        rw [hp2, freeAll_closedTokens, hctp1]
      have hlen2 : p2.store.length = p.store.length := by
        rw [hp2, freeAll_store_length, setState_store_length]
      -- the facts about the final store
      have hstate_mem : ∀ h' ∈ L, p2.stateAt h' = some .free := by
        intro h' hm
        have hsome : (p1.store[h']?).isSome = true := by
          rw [isSome_setState]
          have := hLclosed h' hm
          rw [Pool.stateAt] at this
          exact Option.isSome_iff_exists.mpr
            (by rcases Option.map_eq_some'.mp this with ⟨tk', h1, _⟩; exact ⟨tk', h1⟩)
        rw [hp2, hLrw]
        exact stateAt_freeAll_mem p1 hm hsome
      have hstate_h : p2.stateAt h = some .allocated := by
        rw [hp2, hLrw, Pool.stateAt, getElem_freeAll_notMem p1 hhL, ← Pool.stateAt]
        exact stateAt_setState_self .allocated (by rw [hg]; rfl)
      have hstate_other : ∀ h', h' ∉ L → h' ≠ h → p2.stateAt h' = p.stateAt h' := by
        intro h' hnL hnh
        rw [hp2, hLrw, Pool.stateAt, getElem_freeAll_notMem p1 hnL, ← Pool.stateAt,
          stateAt_setState_ne _ _ hnh]
      have hidAt : ∀ h' : Nat, (p2.store[h']?).map Token.id = (p.store[h']?).map Token.id := by
        intro h'
        rw [hp2, idAt_freeAll, hp1, idAt_setState]
      -- the permutation of recorded handles
      have hperm : (closedHandles p).Perm (L ++ ((eraseA p.closedTokens tk.id).map Prod.snd).flatten) ∨
          (lookupA p.closedTokens tk.id = none ∧ eraseA p.closedTokens tk.id = p.closedTokens ∧ L = []) := by
        cases hlkc : lookupA p.closedTokens tk.id with
        | none =>
          right
          exact ⟨rfl, eraseA_of_lookupA_none hlkc, by rw [hL]; unfold closedListOf; rw [hlkc]; rfl⟩
        | some L0 =>
          left
          have : L = L0 := by rw [hL]; unfold closedListOf; rw [hlkc]; rfl
          subst this
          exact flatten_eraseA_perm hkeys hlkc
      refine ⟨?_, ?_, ?_, ?_, ?_⟩
      · intro e he
        simp only [htok2] at he
        rw [hidAt]
        exact hmap e he
      · intro e he
        simp only [hct2] at he
        obtain ⟨hem, hene⟩ := mem_eraseA he
        obtain ⟨hown, hmem⟩ := hcl e hem
        constructor
        · simp only [htok2]
          cases hlk0 : lookupA p.tokens e.1 with
          | none => rw [hlk0] at hown; simp at hown
          | some h0 =>
            rw [hlk0] at hown
            simp only [Option.some_bind] at hown ⊢
            have hh0 : h0 ≠ h := by
              intro hhh
              subst hhh
              have he1 := hmap (e.1, h0) (lookupA_eq_some_mem hlk0)
              have he2 := hmap (id, h0) (lookupA_eq_some_mem hlk)
              rw [he1] at he2
              simp only [Option.some_inj] at he2
              exact hene (he2.trans hid.symm)
            have hh0L : h0 ∉ L := by
              intro hmm
              have := hLclosed h0 hmm
              rw [Pool.stateAt] at this
              cases hget : p.store[h0]? with
              | none => rw [hget] at this; simp at this
              | some tk0 =>
                rw [hget] at this hown
                simp at this hown
                rw [hown] at this
                simp at this
            have := hstate_other h0 hh0L hh0
            rw [Pool.stateAt, Pool.stateAt] at this
            rw [this]
            exact hown
        · intro h' hm'
          have hcls := hmem h' hm'
          have hne_h : h' ≠ h := by
            intro hhh
            subst hhh
            rw [Pool.stateAt, hg] at hcls
            simp [hs] at hcls
          have hnL : h' ∉ L := by
            intro hmm
            rcases hperm with hperm | ⟨_, _, hLnil⟩
            · have hinflat : h' ∈ ((eraseA p.closedTokens tk.id).map Prod.snd).flatten :=
                mem_flatten_of_mem_entry he hm'
              have hndL : (L ++ ((eraseA p.closedTokens tk.id).map Prod.snd).flatten).Nodup :=
                hperm.nodup_iff.mp hnd
              exact (List.disjoint_of_nodup_append hndL) hmm hinflat
            · rw [hLnil] at hmm; simp at hmm
          have := hstate_other h' hnL hne_h
          show p2.stateAt h' = some TState.closed
          rw [this]
          exact hcls
      · constructor
        · show ((eraseA p2.closedTokens tk.id).map Prod.snd).flatten.Nodup
          rw [hct2]
          rcases hperm with hperm | ⟨_, heq, _⟩
          · have := hperm.nodup_iff.mp hnd
            exact (List.nodup_append.mp this).2.1
          · rw [heq]; exact hnd
        · intro h' hr hst
          rw [List.mem_range] at hr
          have hr2 : h' < p.store.length := by rw [← hlen2]; simpa using hr
          show h' ∈ ((eraseA p2.closedTokens tk.id).map Prod.snd).flatten
          rw [hct2]
          have hne_h : h' ≠ h := by
            intro hhh
            subst hhh
            change p2.stateAt h' = some TState.closed at hst
            rw [hstate_h] at hst
            simp at hst
          have hnL : h' ∉ L := by
            intro hmm
            change p2.stateAt h' = some TState.closed at hst
            rw [hstate_mem h' hmm] at hst
            simp at hst
          change p2.stateAt h' = some TState.closed at hst
          rw [hstate_other h' hnL hne_h] at hst
          have hin := hcov h' (List.mem_range.mpr hr2) hst
          rcases hperm with hperm | ⟨_, heq, _⟩
          · have := hperm.mem_iff.mp hin
            rcases List.mem_append.mp this with hL' | hflat
            · exact absurd hL' hnL
            · exact hflat
          · rw [heq]; exact hin
      · show ((eraseA p2.closedTokens tk.id).map Prod.fst).Nodup
        rw [hct2]
        exact keys_eraseA_nodup hkeys
      · intro hdd
        have : p2.dirty = p.dirty := by rw [hp2, freeAll_dirty, setState_dirty]
        change p2.dirty = false at hdd
        rw [this, hd] at hdd
        simp at hdd
    · simp only [if_neg hs]
      exact hwf

theorem findToClose_spec {p : Pool} {n : String} {h : Nat}
    (hf : p.findToClose n = some h) :
    p.stateAt h = some .free ∨ p.stateAt h = some .allocated := by
  unfold Pool.findToClose at hf
  cases h1 : ((lookupA p.tokensByNames n).getD []).find?
      (fun h => decide (p.stateAt h = some TState.free)) with
  | some h0 =>
    rw [h1] at hf
    simp only [Option.some_inj] at hf
    subst hf
    have h2 := List.find?_some h1
    simp only [decide_eq_true_eq] at h2
    exact Or.inl h2
  | none =>
    rw [h1] at hf
    replace hf : ((lookupA p.tokensByNames n).getD []).find?
        (fun h => decide (p.stateAt h = some TState.allocated)) = some h := by
      simpa using hf
    have h2 := List.find?_some hf
    simp only [decide_eq_true_eq] at h2
    exact Or.inr h2

theorem closedHandles_perm {p : Pool} (id : String) (hkeys : ClosedKeysOK p) :
    (closedHandles p).Perm
      (closedListOf p id ++ ((eraseA p.closedTokens id).map Prod.snd).flatten) := by
  cases hlk : lookupA p.closedTokens id with
  | none =>
    rw [eraseA_of_lookupA_none hlk]
    unfold closedListOf
    rw [hlk]
    simp only [Option.getD_none, List.nil_append]
    exact List.Perm.refl _
  | some L =>
    unfold closedListOf
    rw [hlk]
    simp only [Option.getD_some]
    exact flatten_eraseA_perm hkeys hlk

theorem mem_closedHandles_closed {p : Pool} {x : Nat} (hcl : ClosedOK p)
    (hx : x ∈ closedHandles p) : p.stateAt x = some .closed := by
  rcases List.mem_flatten.mp hx with ⟨l, hl, hxl⟩
  rcases List.mem_map.mp hl with ⟨e, he, rfl⟩
  exact (hcl e he).2 x hxl

theorem pushClosed_closedTokens (p : Pool) (id : String) (h : Nat) :
    (p.pushClosed id h).closedTokens =
      insertA p.closedTokens id (closedListOf p id ++ [h]) := rfl

theorem wf_useLoop (names : List String) (tokName tokId : String) (p : Pool)
    (hwf : WF p) (hd : p.dirty = true)
    (hown : ((lookupA p.tokens tokId).bind (fun h => p.store[h]?)).map Token.state
      = some .inUse) :
    WF (useLoop tokName tokId names p) := by
  induction names generalizing p with
  | nil => exact hwf
  | cons n ns ih =>
    by_cases hn : n = tokName
    · rw [useLoop, if_pos hn]
      exact ih p hwf hd hown
    · rw [useLoop, if_neg hn]
      cases hfc : p.findToClose n with
      | none => exact ih p hwf hd hown
      | some h =>
        have hst := findToClose_spec hfc
        have hsome : (p.store[h]?).isSome = true := by
          rcases hst with hst | hst <;>
            (rw [Pool.stateAt] at hst
             rcases Option.map_eq_some'.mp hst with ⟨tk', hget, _⟩
             rw [hget]; rfl)
        rcases Option.isSome_iff_exists.mp hsome with ⟨tkh, hgh⟩
        have htkh_nc : tkh.state ≠ .closed := by
          rcases hst with hst | hst <;>
            (rw [Pool.stateAt, hgh] at hst
             simp at hst
             simp [hst])
        have htkh_ni : tkh.state ≠ .inUse := by
          rcases hst with hst | hst <;>
            (rw [Pool.stateAt, hgh] at hst
             simp at hst
             simp [hst])
        obtain ⟨hmap, hcl, ⟨hnd, hcov⟩, hkeys, _⟩ := hwf
        have hownh : ∀ h0, lookupA p.tokens tokId = some h0 → h0 ≠ h := by
          intro h0 hlk0 hhh
          subst hhh
          rw [hlk0] at hown
          simp only [Option.some_bind] at hown
          rw [hgh] at hown
          simp at hown
          exact htkh_ni hown
        have hnotin : h ∉ closedHandles p := by
          intro hmm
          have := mem_closedHandles_closed hcl hmm
          rw [Pool.stateAt, hgh] at this
          simp at this
          exact htkh_nc this
        set p1 := (p.setState h .closed).pushClosed tokId h with hp1
        have htokens1 : p1.tokens = p.tokens := by
          rw [hp1, pushClosed_tokens, setState_tokens]
        have hlen1 : p1.store.length = p.store.length := by
          rw [hp1, pushClosed_store, setState_store_length]
        have hstateAt1 : ∀ h' : Nat, h' ≠ h → p1.stateAt h' = p.stateAt h' := by
          intro h' hne
          rw [hp1, Pool.stateAt, pushClosed_store, ← Pool.stateAt, stateAt_setState_ne _ _ hne]
        have hstateAt1h : p1.stateAt h = some .closed := by
          rw [hp1, Pool.stateAt, pushClosed_store, ← Pool.stateAt, stateAt_setState_self _ hsome]
        have hidAt1 : ∀ h' : Nat, (p1.store[h']?).map Token.id = (p.store[h']?).map Token.id := by
          intro h'
          rw [hp1, pushClosed_store, idAt_setState]
        have hct1 : p1.closedTokens
            = insertA p.closedTokens tokId (closedListOf p tokId ++ [h]) := by
          rw [hp1, pushClosed_closedTokens, setState_closedTokens]
          unfold closedListOf
          rw [setState_closedTokens]
        have hch1 : (closedHandles p1).Perm (h :: closedHandles p) := by
          show ((p1.closedTokens.map Prod.snd).flatten).Perm _
          rw [hct1]
          unfold insertA
          simp only [List.map_cons, List.flatten_cons]
          have base := closedHandles_perm tokId hkeys
          refine List.Perm.trans (List.perm_append_comm.append_right _) ?_
          rw [List.append_assoc, List.singleton_append]
          exact base.symm.cons h
        have hown1 : ((lookupA p1.tokens tokId).bind (fun x => p1.store[x]?)).map Token.state
            = some .inUse := by
          rw [htokens1]
          cases hlk0 : lookupA p.tokens tokId with
          | none => rw [hlk0] at hown; simp at hown
          | some h0 =>
            rw [hlk0] at hown
            simp only [Option.some_bind] at hown ⊢
            rw [hp1, pushClosed_store, getElem_setState_ne _ _ (hownh h0 hlk0)]
            exact hown
        have hd1 : p1.dirty = true := by
          rw [hp1, pushClosed_dirty, setState_dirty]
          exact hd
        refine ih p1 ⟨?_, ?_, ?_, ?_, ?_⟩ hd1 hown1
        · intro e he
          rw [htokens1] at he
          rw [hidAt1]
          exact hmap e he
        · intro e he
          rw [hct1] at he
          unfold insertA at he
          rcases List.mem_cons.mp he with he | he
        
          · subst he
            constructor
            · exact hown1
            · intro x hx
              rcases List.mem_append.mp hx with hx | hx
              · have hxc : p.stateAt x = some .closed := by
                  have hlkc := mem_closedListOf hx
                  exact (hcl _ (lookupA_eq_some_mem hlkc)).2 x hx
                have hxh : x ≠ h := by
                  intro hhh
                  subst hhh
                  rw [Pool.stateAt, hgh] at hxc
                  simp at hxc
                  exact htkh_nc hxc
                rw [hstateAt1 x hxh]
                exact hxc
              · rcases List.mem_singleton.mp hx with rfl
                exact hstateAt1h
          · obtain ⟨hem, hene⟩ := mem_eraseA he
            obtain ⟨hown2, hmem2⟩ := hcl e hem
            constructor
            · rw [htokens1]
              cases hlk1 : lookupA p.tokens e.1 with
              | none => rw [hlk1] at hown2; simp at hown2
              | some h1 =>
                rw [hlk1] at hown2
                simp only [Option.some_bind] at hown2 ⊢
                have hh1 : h1 ≠ h := by
                  intro hhh
                  subst hhh
                  rw [hgh] at hown2
                  simp at hown2
                  exact htkh_ni hown2
                rw [hp1, pushClosed_store, getElem_setState_ne _ _ hh1]
                exact hown2
            · intro x hx
              have hxc := hmem2 x hx
              have hxh : x ≠ h := by
                intro hhh
                subst hhh
                rw [Pool.stateAt, hgh] at hxc
                simp at hxc
                exact htkh_nc hxc
              rw [hstateAt1 x hxh]
              exact hxc
        · constructor
          · exact hch1.nodup_iff.mpr (List.nodup_cons.mpr ⟨hnotin, hnd⟩)
          · intro x hr hxc
            rw [List.mem_range, hlen1] at hr
            by_cases hxh : x = h
            · subst hxh
              exact hch1.mem_iff.mpr (List.mem_cons_self _ _)
            · rw [hstateAt1 x hxh] at hxc
              have := hcov x (List.mem_range.mpr hr) hxc
              exact hch1.mem_iff.mpr (List.mem_cons_of_mem _ this)
        · show (p1.closedTokens.map Prod.fst).Nodup
          rw [hct1]
          unfold insertA
          simp only [List.map_cons]
          exact List.nodup_cons.mpr ⟨not_mem_keys_eraseA _ _, keys_eraseA_nodup hkeys⟩
        · intro hdd
          rw [hd1] at hdd
          simp at hdd

theorem not_mem_closedListOf_of_state {p : Pool} {h : Nat} {tk : Token}
    (hwf : WF p) (hg : p.store[h]? = some tk) (hne : tk.state ≠ .closed) (id : String) :
    h ∉ closedListOf p id := by
  intro hm
  have := closedListOf_states hwf h hm
  rw [Pool.stateAt, hg] at this
  simp at this
  exact hne this

theorem stopUsing_spec {p : Pool} {id : String} {h : Nat} {tk : Token}
    (hf : p.findTok id = some (h, tk)) (hs : tk.state = .inUse)
    (hhL : h ∉ closedListOf p tk.id) :
    (p.stopUsing id).2 = none ∧
    (p.stopUsing id).1.store[h]? = some { tk with state := .allocated } ∧
    (∀ h' ∈ closedListOf p tk.id, (p.store[h']?).isSome = true →
      (p.stopUsing id).1.stateAt h' = some .free) ∧
    (∀ h' : Nat, h' ∉ closedListOf p tk.id → h' ≠ h →
      (p.stopUsing id).1.store[h']? = p.store[h']?) ∧
    (p.stopUsing id).1.closedTokens = eraseA p.closedTokens tk.id ∧
    (p.stopUsing id).1.tokens = p.tokens ∧
    (p.stopUsing id).1.tokensByNames = p.tokensByNames ∧
    (p.stopUsing id).1.dirty = p.dirty ∧
    (p.stopUsing id).1.store.length = p.store.length := by
  obtain ⟨hlk, hg⟩ := findTok_eq_some hf
  have hLrw : closedListOf (p.setState h .allocated) tk.id = closedListOf p tk.id := by
    unfold closedListOf
    rw [setState_closedTokens]
  have hr : p.stopUsing id =
      ({ freeAll (p.setState h .allocated) (closedListOf (p.setState h .allocated) tk.id) with
          closedTokens := eraseA (freeAll (p.setState h .allocated)
            (closedListOf (p.setState h .allocated) tk.id)).closedTokens tk.id }, none) := by
    unfold Pool.stopUsing
    rw [hf]
    simp only [if_pos hs]
  rw [hr]
  refine ⟨rfl, ?_, ?_, ?_, ?_, ?_, ?_, ?_, ?_⟩
  · show (freeAll (p.setState h .allocated) (closedListOf (p.setState h .allocated) tk.id)).store[h]?
      = some { tk with state := .allocated }
    rw [hLrw, getElem_freeAll_notMem _ hhL, getElem_setState_self _ hg]
  · intro h' hm hsome
    show (freeAll (p.setState h .allocated) (closedListOf (p.setState h .allocated) tk.id)).stateAt h'
      = some .free
    rw [hLrw]
    exact stateAt_freeAll_mem _ hm (by rw [isSome_setState]; exact hsome)
  · intro h' hnm hnh
    show (freeAll (p.setState h .allocated) (closedListOf (p.setState h .allocated) tk.id)).store[h']?
      = p.store[h']?
    rw [hLrw, getElem_freeAll_notMem _ hnm, getElem_setState_ne _ _ hnh]
  · show eraseA (freeAll (p.setState h .allocated)
        (closedListOf (p.setState h .allocated) tk.id)).closedTokens tk.id
      = eraseA p.closedTokens tk.id
    rw [freeAll_closedTokens, setState_closedTokens]
  · show (freeAll (p.setState h .allocated) (closedListOf (p.setState h .allocated) tk.id)).tokens
      = p.tokens
    rw [freeAll_tokens, setState_tokens]
  · show (freeAll (p.setState h .allocated)
        (closedListOf (p.setState h .allocated) tk.id)).tokensByNames = p.tokensByNames
    rw [freeAll_tokensByNames, setState_tokensByNames]
  · show (freeAll (p.setState h .allocated) (closedListOf (p.setState h .allocated) tk.id)).dirty
      = p.dirty
    rw [freeAll_dirty, setState_dirty]
  · show (freeAll (p.setState h .allocated)
        (closedListOf (p.setState h .allocated) tk.id)).store.length = p.store.length
    rw [freeAll_store_length, setState_store_length]

theorem stopUsing_fail_not_inUse {p : Pool} {id : String} {h : Nat} {tk : Token}
    (hf : p.findTok id = some (h, tk)) (hs : tk.state ≠ .inUse) :
    p.stopUsing id = (p, some .notInUse) := by
  unfold Pool.stopUsing
  rw [hf]
  simp only [if_neg hs]

theorem stopUsing_fail_unknown {p : Pool} {id : String}
    (hf : p.findTok id = none) : p.stopUsing id = (p, some .unknownId) := by
  unfold Pool.stopUsing
  rw [hf]

theorem findTok_dirty (p : Pool) (id : String) :
    Pool.findTok { p with dirty := true } id = p.findTok id := rfl

theorem wf_StopUsingOp (p : Pool) (id : String) (hwf : WF p) :
    WF (p.StopUsingOp id).1 :=
  wf_stopUsing id (wf_dirty hwf) rfl

theorem wf_UseOp (p : Pool) (id : String) (names : List String) (hwf : WF p) :
    WF (p.UseOp id names).1 := by
  unfold Pool.UseOp
  cases hf : Pool.findTok { p with dirty := true } id with
  | none => exact wf_dirty hwf
  | some pr =>
    obtain ⟨h, tk⟩ := pr
    by_cases hbad : tk.state = .inUse ∨ tk.state = .closed
    · simp only [if_pos hbad]
      exact wf_dirty hwf
    · simp only [if_neg hbad]
      push_neg at hbad
      obtain ⟨hlk, hg⟩ := findTok_eq_some hf
      have hwq : WF { p with dirty := true } := wf_dirty hwf
      have hid : tk.id = id := tokenId_of_findTok hwq.1 hf
      have hwq1 : WF (Pool.setState { p with dirty := true } h .inUse) :=
        wf_setState_safe hwq rfl hg hbad.2 hbad.1 (by simp)
      refine wf_useLoop names tk.name tk.id _ hwq1 ?_ ?_
      · rw [setState_dirty]
      · rw [setState_tokens, hid, hlk]
        simp only [Option.some_bind]
        rw [getElem_setState_self _ hg]
        rfl

theorem wf_AllocateOp (p : Pool) (id : String) (hwf : WF p) :
    WF (p.AllocateOp id).1 := by
  unfold Pool.AllocateOp
  cases hf : Pool.findTok { p with dirty := true } id with
  | none => exact wf_dirty hwf
  | some pr =>
    obtain ⟨h, tk⟩ := pr
    obtain ⟨hlk, hg⟩ := findTok_eq_some hf
    by_cases hiu : tk.state = .inUse
    · simp only [if_pos hiu]
      exact wf_stopUsing id (wf_dirty hwf) rfl
    · simp only [if_neg hiu]
      by_cases hcl : tk.state = .closed
      · simp only [if_pos hcl]
        exact wf_dirty hwf
      · simp only [if_neg hcl]
        exact wf_setState_safe (wf_dirty hwf) rfl hg hcl hiu (by simp)

theorem wf_FreeOp (p : Pool) (id : String) (hwf : WF p) :
    WF (p.FreeOp id).1 := by
  unfold Pool.FreeOp
  cases hf : Pool.findTok { p with dirty := true } id with
  | none => exact wf_dirty hwf
  | some pr =>
    obtain ⟨h, tk⟩ := pr
    obtain ⟨hlk, hg⟩ := findTok_eq_some hf
    by_cases hiu : tk.state = .inUse
    · simp only [if_pos hiu]
      have hwq : WF { p with dirty := true } := wf_dirty hwf
      have hhL : h ∉ closedListOf { p with dirty := true } tk.id :=
        not_mem_closedListOf_of_state hwq hg (by rw [hiu]; simp) tk.id
      obtain ⟨_, hsh, _, _, _, _, _, hsd, _⟩ := stopUsing_spec hf hiu hhL
      have hw2 : WF (Pool.stopUsing { p with dirty := true } id).1 :=
        wf_stopUsing id hwq rfl
      exact wf_setState_safe hw2 (by rw [hsd]) hsh (by simp) (by simp) (by simp)
    · simp only [if_neg hiu]
      by_cases hcl : tk.state = .closed
      · simp only [if_pos hcl]
        exact wf_dirty hwf
      · simp only [if_neg hcl]
        exact wf_setState_safe (wf_dirty hwf) rfl hg hcl hiu (by simp)

theorem wf_FindOp (p : Pool) (id : String) (hwf : WF p) : WF (p.FindOp id).1 := by
  unfold Pool.FindOp
  cases hf : Pool.findTok { p with dirty := true } id with
  | none => exact wf_dirty hwf
  | some pr => exact wf_dirty hwf

theorem wf_TokensOp (p : Pool) (hwf : WF p) : WF p.TokensOp.1 :=
  wf_dirty hwf

theorem wf_addListener (p : Pool) (hwf : WF p) : WF p.addListener := by
  obtain ⟨h1, h2, h3, h4, h5⟩ := hwf
  exact ⟨h1, h2, h3, h4, h5⟩

/-- The invariant carried through the `Restore` loops: a coherent id index,
no closure entries, and no `closed` or `inUse` token anywhere. -/
def RState (p : Pool) : Prop :=
  MapOK p ∧ p.closedTokens = [] ∧
  (∀ h ∈ List.range p.store.length,
    p.stateAt h ≠ some .closed ∧ p.stateAt h ≠ some .inUse) ∧
  p.dirty = true

theorem rename_R {p : Pool} (h : Nat) (newId : String) (hr : RState p) :
    RState (p.rename h newId) := by
  obtain ⟨hmap, hct, hst, hd⟩ := hr
  unfold Pool.rename
  cases hg : p.store[h]? with
  | none => exact ⟨hmap, hct, hst, hd⟩
  | some tk =>
    have hlt : h < p.store.length := by
      rcases List.getElem?_eq_some_iff.mp hg with ⟨hlt, _⟩
      exact hlt
    refine ⟨?_, hct, ?_, hd⟩
    · intro e he
      rcases List.mem_cons.mp he with he | he
      · subst he
        show ((p.store.set h { tk with id := newId, state := .allocated })[h]?).map Token.id
          = some newId
        rw [List.getElem?_set_self']
        rw [hg]
        rfl
      · obtain ⟨he2, hene2⟩ := mem_eraseA he
        obtain ⟨he3, hene3⟩ := mem_eraseA he2
        have hmap3 := hmap e he3
        have heh : e.2 ≠ h := by
          intro hhh
          rw [hhh, hg] at hmap3
          simp at hmap3
          exact hene3 hmap3.symm
        show ((p.store.set h { tk with id := newId, state := .allocated })[e.2]?).map Token.id
          = some e.1
        rw [List.getElem?_set_ne (Ne.symm heh)]
        exact hmap3
    · intro h' hr'
      rw [List.mem_range, List.length_set] at hr'
      by_cases hh : h' = h
      · subst hh
        constructor <;>
          (show Option.map Token.state ((p.store.set h' { tk with id := newId, state := .allocated })[h']?) ≠ _
           rw [List.getElem?_set_self', hg]
           simp)
      · have := hst h' (List.mem_range.mpr hr')
        constructor <;>
          (show Option.map Token.state ((p.store.set h { tk with id := newId, state := .allocated })[h']?) ≠ _
           rw [List.getElem?_set_ne (Ne.symm hh)]
           first
           | exact this.1
           | exact this.2)

theorem restoreEntry_R {ids : List String} {hs : List Nat} {p : Pool} (hr : RState p) :
    RState (restoreEntry p ids hs) := by
  induction ids generalizing hs p with
  | nil => cases hs <;> exact hr
  | cons i ids ih =>
    cases hs with
    | nil => exact hr
    | cons h hs => exact ih (rename_R h i hr)

theorem restoreLoop_R {m : List (String × List String)} {p : Pool} (hr : RState p) :
    RState (restoreLoop p m) := by
  induction m generalizing p with
  | nil => exact hr
  | cons e m ih =>
    obtain ⟨name, ids⟩ := e
    rw [restoreLoop]
    cases lookupA p.tokensByNames name with
    | none => exact ih hr
    | some hsx => exact ih (restoreEntry_R hr)

theorem wf_RestoreOp (p : Pool) (m : List (String × List String)) (hwf : WF p) :
    WF (p.RestoreOp m).1 := by
  unfold Pool.RestoreOp
  by_cases hd : p.dirty
  · simp only [if_pos hd]
    exact hwf
  · simp only [if_neg hd]
    simp only [Bool.not_eq_true] at hd
    obtain ⟨hclean1, hclean2⟩ := hwf.2.2.2.2 hd
    have hr0 : RState { p with dirty := true } := by
      refine ⟨hwf.1, hclean1, ?_, rfl⟩
      intro h hrange
      have := hclean2 h hrange
      change p.stateAt h = some .free at this
      constructor <;> (change p.stateAt h ≠ _; rw [this]; simp)
    have hrfinal : RState (restoreLoop { p with dirty := true } m) := restoreLoop_R hr0
    obtain ⟨hmap, hct, hst, hdt⟩ := hrfinal
    refine ⟨hmap, ?_, ⟨?_, ?_⟩, ?_, ?_⟩
    · intro e he
      rw [hct] at he
      simp at he
    · show ((restoreLoop { p with dirty := true } m).closedTokens.map Prod.snd).flatten.Nodup
      rw [hct]
      simp
    · intro h hrange hcl
      exact absurd hcl (hst h hrange).1
    · show ((restoreLoop { p with dirty := true } m).closedTokens.map Prod.fst).Nodup
      rw [hct]
      simp
    · intro hdd
      rw [hdt] at hdd
      simp at hdd

theorem wf_step {p q : Pool} (hwf : WF p) (hs : Step p q) : WF q := by
  cases hs with
  | restore m => exact wf_RestoreOp p m hwf
  | tokens => exact wf_TokensOp p hwf
  | findOp id => exact wf_FindOp p id hwf
  | alloc id => exact wf_AllocateOp p id hwf
  | freeOp id => exact wf_FreeOp p id hwf
  | use id names => exact wf_UseOp p id names hwf
  | stop id => exact wf_StopUsingOp p id hwf
  | addL => exact wf_addListener p hwf

theorem wf_initial {p : Pool} (hi : Initial p) : WF p := by
  obtain ⟨hd, hct, hst, hmap⟩ := hi
  refine ⟨hmap, ?_, ⟨?_, ?_⟩, ?_, ?_⟩
  · intro e he
    rw [hct] at he
    simp at he
  · show ((p.closedTokens.map Prod.snd).flatten).Nodup
    rw [hct]
    simp
  · intro h hrange hcl
    rw [hst h hrange] at hcl
    simp at hcl
  · show ((p.closedTokens.map Prod.fst)).Nodup
    rw [hct]
    simp
  · intro _
    exact ⟨hct, hst⟩

theorem wf_reachable {p : Pool} (hr : Reachable p) : WF p := by
  induction hr with
  | init p hi => exact wf_initial hi
  | step p q _ hs ih => exact wf_step ih hs

theorem closedListOf_pushClosed_self (p : Pool) (id : String) (h : Nat) :
    closedListOf (p.pushClosed id h) id = closedListOf p id ++ [h] := by
  unfold closedListOf Pool.pushClosed
  simp only [lookupA_insertA_self, Option.getD_some]

theorem closedListOf_setState (p : Pool) (h : Nat) (s : TState) (id : String) :
    closedListOf (p.setState h s) id = closedListOf p id := by
  unfold closedListOf
  rw [setState_closedTokens]

theorem useLoop_frame (names : List String) (tokName tokId : String) (p : Pool) (ht : Nat)
    (hstate : p.stateAt ht = some .inUse) :
    ∃ Δ : List Nat,
      closedListOf (useLoop tokName tokId names p) tokId = closedListOf p tokId ++ Δ ∧
      (∀ h' ∈ Δ, h' ≠ ht ∧ (p.store[h']?).isSome = true ∧
        (p.stateAt h' = some .free ∨ p.stateAt h' = some .allocated)) ∧
      (∀ h' : Nat, h' ∉ Δ → (useLoop tokName tokId names p).store[h']? = p.store[h']?) ∧
      (useLoop tokName tokId names p).tokens = p.tokens ∧
      (useLoop tokName tokId names p).tokensByNames = p.tokensByNames ∧
      (useLoop tokName tokId names p).dirty = p.dirty ∧
      (useLoop tokName tokId names p).store.length = p.store.length ∧
      (∀ k : String, k ≠ tokId →
        lookupA (useLoop tokName tokId names p).closedTokens k = lookupA p.closedTokens k) := by
  induction names generalizing p with
  | nil =>
    exact ⟨[], by simp [useLoop], by simp, fun h' _ => rfl, rfl, rfl, rfl, rfl, fun k _ => rfl⟩
  | cons n ns ih =>
    by_cases hn : n = tokName
    · rw [useLoop, if_pos hn]
      exact ih p hstate
    · rw [useLoop, if_neg hn]
      cases hfc : p.findToClose n with
      | none => exact ih p hstate
      | some h =>
        have hst := findToClose_spec hfc
        have hsome : (p.store[h]?).isSome = true := by
          rcases hst with hst | hst <;>
            (rw [Pool.stateAt] at hst
             rcases Option.map_eq_some'.mp hst with ⟨tk', hget, _⟩
             rw [hget]; rfl)
        have hhne : h ≠ ht := by
          intro hhh
          subst hhh
          rw [hstate] at hst
          rcases hst with hst | hst <;> simp at hst
        set p1 := (p.setState h .closed).pushClosed tokId h with hp1
        have hstate1 : p1.stateAt ht = some .inUse := by
          rw [hp1, Pool.stateAt, pushClosed_store, ← Pool.stateAt,
            stateAt_setState_ne _ _ (Ne.symm hhne)]
          exact hstate
        obtain ⟨Δ, hΔlist, hΔmem, hΔframe, hΔtok, hΔnames, hΔdirty, hΔlen, hΔkeys⟩ :=
          ih p1 hstate1
        refine ⟨h :: Δ, ?_, ?_, ?_, ?_, ?_, ?_, ?_, ?_⟩
        · rw [hΔlist, hp1, closedListOf_pushClosed_self, closedListOf_setState,
            List.append_assoc, List.singleton_append]
        · intro h' hm
          rcases List.mem_cons.mp hm with rfl | hm
          · exact ⟨hhne, hsome, hst⟩
          · obtain ⟨hne1, hsome1, hst1⟩ := hΔmem h' hm
            have hne2 : h' ≠ h := by
              intro hhh
              subst hhh
              rw [hp1, Pool.stateAt, pushClosed_store, ← Pool.stateAt,
                stateAt_setState_self _ hsome] at hst1
              rcases hst1 with hst1 | hst1 <;> simp at hst1
            rw [hp1, Pool.stateAt, pushClosed_store, ← Pool.stateAt,
              stateAt_setState_ne _ _ hne2] at hst1
            refine ⟨hne1, ?_, hst1⟩
            rw [hp1, pushClosed_store] at hsome1
            rw [← isSome_setState p h h' .closed]
            exact hsome1
        · intro h' hnm
          simp only [List.mem_cons] at hnm
          push_neg at hnm
          rw [hΔframe h' hnm.2, hp1, pushClosed_store, getElem_setState_ne _ _ hnm.1]
        · rw [hΔtok, hp1, pushClosed_tokens, setState_tokens]
        · rw [hΔnames, hp1, pushClosed_tokensByNames, setState_tokensByNames]
        · rw [hΔdirty, hp1, pushClosed_dirty, setState_dirty]
        · rw [hΔlen, hp1, pushClosed_store, setState_store_length]
        · intro k hk
          rw [hΔkeys k hk, hp1]
          show lookupA (insertA (p.setState h .closed).closedTokens tokId _) k
            = lookupA p.closedTokens k
          rw [lookupA_insertA_ne _ _ (Ne.symm hk), setState_closedTokens]

theorem findTok_of {p : Pool} {id : String} {h : Nat} {tk : Token}
    (hlk : lookupA p.tokens id = some h) (hg : p.store[h]? = some tk) :
    p.findTok id = some (h, tk) := by
  unfold Pool.findTok
  rw [hlk]
  show (p.store[h]?).map (fun tk => (h, tk)) = some (h, tk)
  rw [hg]
  rfl

theorem StopUsingOp_eq (p : Pool) (id : String) :
    p.StopUsingOp id = Pool.stopUsing { p with dirty := true } id := rfl

theorem AllocateOp_unknown {p : Pool} {id : String}
    (hf : Pool.findTok { p with dirty := true } id = none) :
    p.AllocateOp id = ({ p with dirty := true }, some .unknownId) := by
  unfold Pool.AllocateOp
  rw [hf]

theorem AllocateOp_inUse {p : Pool} {id : String} {h : Nat} {tk : Token}
    (hf : Pool.findTok { p with dirty := true } id = some (h, tk))
    (hs : tk.state = .inUse) :
    p.AllocateOp id = Pool.stopUsing { p with dirty := true } id := by
  unfold Pool.AllocateOp
  rw [hf]
  simp only [if_pos hs]

theorem AllocateOp_closed {p : Pool} {id : String} {h : Nat} {tk : Token}
    (hf : Pool.findTok { p with dirty := true } id = some (h, tk))
    (hs : tk.state = .closed) :
    p.AllocateOp id = ({ p with dirty := true }, some .closedToken) := by
  unfold Pool.AllocateOp
  rw [hf]
  have hni : ¬ tk.state = .inUse := by rw [hs]; simp
  simp only [if_neg hni, if_pos hs]

theorem AllocateOp_default {p : Pool} {id : String} {h : Nat} {tk : Token}
    (hf : Pool.findTok { p with dirty := true } id = some (h, tk))
    (hni : tk.state ≠ .inUse) (hnc : tk.state ≠ .closed) :
    p.AllocateOp id = (Pool.setState { p with dirty := true } h .allocated, none) := by
  unfold Pool.AllocateOp
  rw [hf]
  simp only [if_neg hni, if_neg hnc]

theorem FreeOp_unknown {p : Pool} {id : String}
    (hf : Pool.findTok { p with dirty := true } id = none) :
    p.FreeOp id = ({ p with dirty := true }, some .unknownId) := by
  unfold Pool.FreeOp
  rw [hf]

theorem FreeOp_inUse {p : Pool} {id : String} {h : Nat} {tk : Token}
    (hf : Pool.findTok { p with dirty := true } id = some (h, tk))
    (hs : tk.state = .inUse) :
    p.FreeOp id
      = ((Pool.stopUsing { p with dirty := true } id).1.setState h .free, none) := by
  unfold Pool.FreeOp
  rw [hf]
  simp only [if_pos hs]

theorem FreeOp_closed {p : Pool} {id : String} {h : Nat} {tk : Token}
    (hf : Pool.findTok { p with dirty := true } id = some (h, tk))
    (hs : tk.state = .closed) :
    p.FreeOp id = ({ p with dirty := true }, none) := by
  unfold Pool.FreeOp
  rw [hf]
  have hni : ¬ tk.state = .inUse := by rw [hs]; simp
  simp only [if_neg hni, if_pos hs]

theorem FreeOp_default {p : Pool} {id : String} {h : Nat} {tk : Token}
    (hf : Pool.findTok { p with dirty := true } id = some (h, tk))
    (hni : tk.state ≠ .inUse) (hnc : tk.state ≠ .closed) :
    p.FreeOp id = (Pool.setState { p with dirty := true } h .free, none) := by
  unfold Pool.FreeOp
  rw [hf]
  simp only [if_neg hni, if_neg hnc]

theorem UseOp_unknown {p : Pool} {id : String} {names : List String}
    (hf : Pool.findTok { p with dirty := true } id = none) :
    p.UseOp id names = ({ p with dirty := true }, some .unknownId) := by
  unfold Pool.UseOp
  rw [hf]

theorem UseOp_bad {p : Pool} {id : String} {names : List String} {h : Nat} {tk : Token}
    (hf : Pool.findTok { p with dirty := true } id = some (h, tk))
    (hs : tk.state = .inUse ∨ tk.state = .closed) :
    p.UseOp id names = ({ p with dirty := true }, some (.badState tk.state)) := by
  unfold Pool.UseOp
  rw [hf]
  simp only [if_pos hs]

theorem UseOp_ok {p : Pool} {id : String} {names : List String} {h : Nat} {tk : Token}
    (hf : Pool.findTok { p with dirty := true } id = some (h, tk))
    (hs : ¬(tk.state = .inUse ∨ tk.state = .closed)) :
    p.UseOp id names
      = (useLoop tk.name tk.id names (Pool.setState { p with dirty := true } h .inUse),
        none) := by
  unfold Pool.UseOp
  rw [hf]
  simp only [if_neg hs]

theorem FindOp_unknown {p : Pool} {id : String}
    (hf : Pool.findTok { p with dirty := true } id = none) :
    p.FindOp id = ({ p with dirty := true }, none) := by
  unfold Pool.FindOp
  rw [hf]

theorem FindOp_known {p : Pool} {id : String} {h : Nat} {tk : Token}
    (hf : Pool.findTok { p with dirty := true } id = some (h, tk)) :
    p.FindOp id = ({ p with dirty := true }, some tk.name) := by
  unfold Pool.FindOp
  rw [hf]

theorem dirty_update_eq {p : Pool} (hd : p.dirty = true) : { p with dirty := true } = p := by
  cases p
  simp only at hd
  rw [hd]

theorem getElem_isSome_of_length {l : List Token} {l' : List Token} {i : Nat}
    (hlen : l.length = l'.length) (hs : (l'[i]?).isSome = true) : (l[i]?).isSome = true := by
  rcases Option.isSome_iff_exists.mp hs with ⟨x, hx⟩
  have hlt : i < l'.length := (List.getElem?_eq_some_iff.mp hx).1
  rw [List.getElem?_eq_getElem (by rw [hlen]; exact hlt)]
  rfl

/-- The part of the closure invariant (spec I2/I3) that the code actually
maintains: recorded siblings of an `InUse` token are `Closed`; a `Closed`
token is recorded exactly once over all closure lists; and when the `InUse`
token leaves that state through `StopUsing`, `Free` or `Allocate`, every
recorded sibling becomes `Free`. -/
def ClosureInv (p : Pool) : Prop :=
  (∀ id h tk, lookupA p.tokens id = some h → p.store[h]? = some tk → tk.state = .inUse →
    ∀ h' ∈ closedListOf p tk.id, p.stateAt h' = some .closed) ∧
  (∀ h tk, p.store[h]? = some tk → tk.state = .closed → (closedHandles p).count h = 1) ∧
  (∀ id h tk, lookupA p.tokens id = some h → p.store[h]? = some tk → tk.state = .inUse →
    ∀ h' ∈ closedListOf p tk.id,
      (p.StopUsingOp id).1.stateAt h' = some .free ∧
      (p.FreeOp id).1.stateAt h' = some .free ∧
      (p.AllocateOp id).1.stateAt h' = some .free)

theorem closureInv_of_wf {p : Pool} (hwf : WF p) : ClosureInv p := by
  refine ⟨?_, ?_, ?_⟩
  · intro id h tk _ _ _ h' hm
    exact closedListOf_states hwf h' hm
  · intro h tk hg hcl
    have hmem : h ∈ closedHandles p := by
      refine hwf.2.2.1.2 h ?_ ?_
      · rw [List.mem_range]
        exact (List.getElem?_eq_some_iff.mp hg).1
      · rw [Pool.stateAt, hg]
        simp [hcl]
    exact List.count_eq_one_of_mem hwf.2.2.1.1 hmem
  · intro id h tk hlk hg hs h' hm
    have hwq : WF { p with dirty := true } := wf_dirty hwf
    have hfq : Pool.findTok { p with dirty := true } id = some (h, tk) :=
      findTok_of hlk hg
    have hhL : h ∉ closedListOf { p with dirty := true } tk.id :=
      not_mem_closedListOf_of_state hwq hg (by rw [hs]; simp) tk.id
    obtain ⟨_, hsh, hfree, hframe, _, _, _, _, _⟩ := stopUsing_spec hfq hs hhL
    have hm' : h' ∈ closedListOf { p with dirty := true } tk.id := hm
    have hsome : ((Pool.mk p.store p.tokens p.tokensByNames p.closedTokens p.listeners
        true).store[h']?).isSome = true := by
      have := closedListOf_states hwf h' hm
      rw [Pool.stateAt] at this
      rcases Option.map_eq_some'.mp this with ⟨tk', hget, _⟩
      show (p.store[h']?).isSome = true
      rw [hget]
      rfl
    have hfree' := hfree h' hm' hsome
    have hneh : h' ≠ h := by
      intro hhh
      subst hhh
      have := closedListOf_states hwf h' hm
      rw [Pool.stateAt, hg] at this
      simp [hs] at this
    refine ⟨hfree', ?_, ?_⟩
    · rw [FreeOp_inUse hfq hs]
      show ((Pool.stopUsing { p with dirty := true } id).1.setState h .free).stateAt h'
        = some .free
      rw [stateAt_setState_ne _ _ hneh]
      exact hfree'
    · rw [AllocateOp_inUse hfq hs]
      exact hfree'

/-- C1, amended: in every reachable pool state the retained closure facts
hold — every token recorded in `closedBy[t.id]` of an `InUse` token `t` is
`Closed`, every `Closed` token is recorded in exactly one closure list, and
when `t` leaves `InUse` (via `StopUsing`, `Free`, or `Allocate`) every
recorded sibling becomes `Free`.  The claim's stronger reading — that for
each other advertised name exactly one sibling is closed and registered, so
at most one token per physical VF slot is `InUse` — is refuted by
`c1_counterexample` below. -/
theorem c1_closure_invariant (p : Pool) (hr : Reachable p) : ClosureInv p :=
  closureInv_of_wf (wf_reachable hr)

/-- A three-token pool: one token of name `A`, two of name `B`, all `free`,
with coherent indices — the shape `NewPool` produces for a config with one
VF advertised under `A` and two under `B`. -/
def cexPool0 : Pool :=
  { store := [⟨"1", "A", .free⟩, ⟨"2", "B", .free⟩, ⟨"3", "B", .free⟩],
    tokens := [("1", 0), ("2", 1), ("3", 2)],
    tokensByNames := [("A", [0]), ("B", [1, 2])],
    closedTokens := [],
    listeners := 0,
    dirty := false }

/-- `Use("1", [A,B])` followed by `Use("3", [B,A])` on `cexPool0`. -/
def cexPool2 : Pool := ((cexPool0.UseOp "1" ["A", "B"]).1.UseOp "3" ["B", "A"]).1

/-- C1 counterexample: after `Use("1",[A,B]); Use("3",[B,A])` the pool is
reachable, token `3` is `InUse` with `names = [B,A]`, yet `closedBy["3"]` is
empty and the only token of the other advertised name `A` is `InUse`, not
`Closed` — so no sibling of name `A` was closed and registered for token
`3` (`findToClose` skipped), and two tokens sharing an advertised name are
`InUse` at once. -/
theorem c1_counterexample :
    Reachable cexPool2 ∧
    lookupA cexPool2.tokens "3" = some 2 ∧
    cexPool2.stateAt 2 = some .inUse ∧
    closedListOf cexPool2 "3" = [] ∧
    lookupA cexPool2.tokensByNames "A" = some [0] ∧
    cexPool2.stateAt 0 = some .inUse := by
  refine ⟨?_, by decide, by decide, by decide, by decide, by decide⟩
  exact Reachable.step _ _
    (Reachable.step _ _
      (Reachable.init _ (by unfold Initial MapOK cexPool0; decide))
      (Step.use cexPool0 "1" ["A", "B"]))
    (Step.use (cexPool0.UseOp "1" ["A", "B"]).1 "3" ["B", "A"])

/-- Witness for C1 (amended): the invariant evaluated at the concrete
initial pool `cexPool0`. -/
theorem c1_closure_invariant_witness : ClosureInv cexPool0 :=
  c1_closure_invariant cexPool0
    (Reachable.init _ (by unfold Initial MapOK cexPool0; decide))

/-- C7: a successful `Use(id, names)` on a `Free` or `Allocated` token
followed by `StopUsing(id)` leaves the token `Allocated`, returns every
sibling recorded in `closedBy[id]` during the `Use` to `Free`, removes the
`closedBy` entry for `id`, and touches no other token — in particular a
sibling that was `Allocated` before the `Use` comes back `Free`, and a
token that was `Free` before the `Use` ends `Allocated`. -/
theorem c7_use_stopUsing_round_trip
    (p : Pool) (id : String) (names : List String) (ht : Nat) (tk : Token)
    (hlk : lookupA p.tokens id = some ht) (hg : p.store[ht]? = some tk)
    (hid : tk.id = id)
    (hst : tk.state = .free ∨ tk.state = .allocated)
    (hnoc : lookupA p.closedTokens id = none) :
    (p.UseOp id names).2 = none ∧
    ((p.UseOp id names).1.StopUsingOp id).2 = none ∧
    ((p.UseOp id names).1.StopUsingOp id).1.stateAt ht = some .allocated ∧
    (∀ h' ∈ closedListOf (p.UseOp id names).1 id,
      ((p.UseOp id names).1.StopUsingOp id).1.stateAt h' = some .free) ∧
    lookupA ((p.UseOp id names).1.StopUsingOp id).1.closedTokens id = none ∧
    (∀ h' : Nat, h' ∉ closedListOf (p.UseOp id names).1 id → h' ≠ ht →
      ((p.UseOp id names).1.StopUsingOp id).1.store[h']? = p.store[h']?) := by
  have hfq : Pool.findTok { p with dirty := true } id = some (ht, tk) :=
    findTok_of hlk hg
  have hbad : ¬(tk.state = .inUse ∨ tk.state = .closed) := by
    rcases hst with hst | hst <;> rw [hst] <;> simp
  have huse : p.UseOp id names
      = (useLoop tk.name tk.id names (Pool.setState { p with dirty := true } ht .inUse),
        none) := UseOp_ok hfq hbad
  rw [huse]
  have hgq : (Pool.mk p.store p.tokens p.tokensByNames p.closedTokens p.listeners
      true).store[ht]? = some tk := hg
  have hq1g : (Pool.setState { p with dirty := true } ht .inUse).store[ht]?
      = some { tk with state := .inUse } := getElem_setState_self _ hgq
  have hq1state : (Pool.setState { p with dirty := true } ht .inUse).stateAt ht
      = some .inUse := by
    rw [Pool.stateAt, hq1g]
    rfl
  obtain ⟨Δ, hΔlist, hΔmem, hΔframe, hΔtok, _, hΔdirty, hΔlen, hΔkeys⟩ :=
    useLoop_frame names tk.name tk.id (Pool.setState { p with dirty := true } ht .inUse)
      ht hq1state
  set u1 := useLoop tk.name tk.id names (Pool.setState { p with dirty := true } ht .inUse)
    with hu1
  -- the closure list recorded by the Use is exactly Δ
  have hΔonly : closedListOf u1 tk.id = Δ := by
    rw [hΔlist, closedListOf_setState]
    have : closedListOf { p with dirty := true } tk.id = [] := by
      unfold closedListOf
      show (lookupA p.closedTokens tk.id).getD [] = []
      rw [hid, hnoc]
      rfl
    rw [this]
    rfl
  have hu1dirty : u1.dirty = true := by
    rw [hΔdirty, setState_dirty]
  have hstop : u1.StopUsingOp id = u1.stopUsing id := by
    rw [Pool.StopUsingOp, dirty_update_eq hu1dirty]
  have hu1tok : lookupA u1.tokens id = some ht := by
    rw [hΔtok, setState_tokens]
    exact hlk
  have hu1ht : u1.store[ht]? = some { tk with state := .inUse } := by
    have hhtΔ : ht ∉ Δ := by
      intro hm
      exact absurd rfl (hΔmem ht hm).1
    rw [hΔframe ht hhtΔ]
    exact hq1g
  have hfu1 : u1.findTok id = some (ht, { tk with state := .inUse }) :=
    findTok_of hu1tok hu1ht
  have hhL1 : ht ∉ closedListOf u1 ({ tk with state := .inUse } : Token).id := by
    show ht ∉ closedListOf u1 tk.id
    rw [hΔonly]
    intro hm
    exact absurd rfl (hΔmem ht hm).1
  obtain ⟨hs2, hsh, hfree, hframe, hct, _, _, _, _⟩ :=
    stopUsing_spec hfu1 rfl hhL1
  refine ⟨rfl, ?_, ?_, ?_, ?_, ?_⟩
  · rw [hstop]
    exact hs2
  · rw [hstop, Pool.stateAt, hsh]
    rfl
  · intro h' hm
    have hm' : h' ∈ closedListOf u1 tk.id := by
      rw [hid]
      exact hm
    rw [hstop]
    refine hfree h' ?_ ?_
    · exact hm'
    · rw [hΔonly] at hm'
      obtain ⟨_, hsome, _⟩ := hΔmem h' hm'
      refine getElem_isSome_of_length ?_ hsome
      rw [hΔlen, setState_store_length]
  · rw [hstop, hct, show ({ tk with state := .inUse } : Token).id = id from hid]
    exact lookupA_eraseA_self _ _
  · intro h' hnm hne
    have hnm' : h' ∉ closedListOf u1 ({ tk with state := .inUse } : Token).id := by
      show h' ∉ closedListOf u1 tk.id
      rw [hid]
      exact hnm
    rw [hstop, hframe h' hnm' hne, hΔframe h' (by rw [hΔonly] at hnm'; exact hnm'),
      getElem_setState_ne _ _ hne]

/-- The full transition table of `Allocate(id)` for a known token at handle
`ht`: `Free`/`Allocated` end `Allocated` with success and nothing else
changes; `InUse` is implicitly stopped (siblings freed, `closedBy` entry
cleared) and ends `Allocated` with success; `Closed` fails `ClosedToken`
with no change beyond the `dirty` flag. -/
def AllocateSpec (p : Pool) (id : String) (ht : Nat) (tk : Token) : Prop :=
  ((tk.state = .free ∨ tk.state = .allocated) →
    (p.AllocateOp id).2 = none ∧
    (p.AllocateOp id).1.store[ht]? = some { tk with state := .allocated } ∧
    (∀ h' : Nat, h' ≠ ht → (p.AllocateOp id).1.store[h']? = p.store[h']?) ∧
    (p.AllocateOp id).1.closedTokens = p.closedTokens) ∧
  (tk.state = .inUse →
    (p.AllocateOp id).2 = none ∧
    (p.AllocateOp id).1.store[ht]? = some { tk with state := .allocated } ∧
    (∀ h' ∈ closedListOf p id, (p.AllocateOp id).1.stateAt h' = some .free) ∧
    lookupA (p.AllocateOp id).1.closedTokens id = none ∧
    (∀ h' : Nat, h' ∉ closedListOf p id → h' ≠ ht →
      (p.AllocateOp id).1.store[h']? = p.store[h']?)) ∧
  (tk.state = .closed →
    p.AllocateOp id = ({ p with dirty := true }, some .closedToken))

/-- C3: `Allocate` follows its transition table exactly. -/
theorem c3_allocate_table
    (p : Pool) (id : String) (ht : Nat) (tk : Token)
    (hlk : lookupA p.tokens id = some ht) (hg : p.store[ht]? = some tk)
    (hid : tk.id = id)
    (hhL : ht ∉ closedListOf p id)
    (hS : ∀ h' ∈ closedListOf p id, (p.store[h']?).isSome = true) :
    AllocateSpec p id ht tk := by
  have hfq : Pool.findTok { p with dirty := true } id = some (ht, tk) :=
    findTok_of hlk hg
  have hgq : (Pool.mk p.store p.tokens p.tokensByNames p.closedTokens p.listeners
      true).store[ht]? = some tk := hg
  refine ⟨?_, ?_, ?_⟩
  · intro hst
    have hni : tk.state ≠ .inUse := by rcases hst with h | h <;> rw [h] <;> simp
    have hnc : tk.state ≠ .closed := by rcases hst with h | h <;> rw [h] <;> simp
    rw [AllocateOp_default hfq hni hnc]
    refine ⟨rfl, ?_, ?_, ?_⟩
    · exact getElem_setState_self _ hgq
    · intro h' hne
      exact getElem_setState_ne _ _ hne
    · exact setState_closedTokens _ _ _
  · intro hst
    rw [AllocateOp_inUse hfq hst]
    have hhL' : ht ∉ closedListOf { p with dirty := true } tk.id := by
      show ht ∉ closedListOf p tk.id
      rw [hid]
      exact hhL
    obtain ⟨hs2, hsh, hfree, hframe, hct, _, _, _, _⟩ := stopUsing_spec hfq hst hhL'
    refine ⟨hs2, hsh, ?_, ?_, ?_⟩
    · intro h' hm
      refine hfree h' ?_ (hS h' hm)
      show h' ∈ closedListOf p tk.id
      rw [hid]
      exact hm
    · rw [hct, show tk.id = id from hid]
      exact lookupA_eraseA_self _ _
    · intro h' hnm hne
      refine hframe h' ?_ hne
      show h' ∉ closedListOf p tk.id
      rw [hid]
      exact hnm
  · intro hst
    exact AllocateOp_closed hfq hst

/-- The full transition table of `Free(id)` for a known token at handle
`ht`: it always succeeds; `Free`/`Allocated` end `Free` with nothing else
changed; `InUse` is implicitly stopped (siblings freed, `closedBy` entry
cleared) and then ends `Free`; `Closed` is returned unchanged. -/
def FreeSpec (p : Pool) (id : String) (ht : Nat) (tk : Token) : Prop :=
  ((tk.state = .free ∨ tk.state = .allocated) →
    (p.FreeOp id).2 = none ∧
    (p.FreeOp id).1.store[ht]? = some { tk with state := .free } ∧
    (∀ h' : Nat, h' ≠ ht → (p.FreeOp id).1.store[h']? = p.store[h']?) ∧
    (p.FreeOp id).1.closedTokens = p.closedTokens) ∧
  (tk.state = .inUse →
    (p.FreeOp id).2 = none ∧
    (p.FreeOp id).1.store[ht]? = some { tk with state := .free } ∧
    (∀ h' ∈ closedListOf p id, (p.FreeOp id).1.stateAt h' = some .free) ∧
    lookupA (p.FreeOp id).1.closedTokens id = none ∧
    (∀ h' : Nat, h' ∉ closedListOf p id → h' ≠ ht →
      (p.FreeOp id).1.store[h']? = p.store[h']?)) ∧
  (tk.state = .closed →
    p.FreeOp id = ({ p with dirty := true }, none))

/-- C4: `Free` always succeeds on a known id and follows its transition
table exactly. -/
theorem c4_free_table
    (p : Pool) (id : String) (ht : Nat) (tk : Token)
    (hlk : lookupA p.tokens id = some ht) (hg : p.store[ht]? = some tk)
    (hid : tk.id = id)
    (hhL : ht ∉ closedListOf p id)
    (hS : ∀ h' ∈ closedListOf p id, (p.store[h']?).isSome = true) :
    FreeSpec p id ht tk := by
  have hfq : Pool.findTok { p with dirty := true } id = some (ht, tk) :=
    findTok_of hlk hg
  have hgq : (Pool.mk p.store p.tokens p.tokensByNames p.closedTokens p.listeners
      true).store[ht]? = some tk := hg
  refine ⟨?_, ?_, ?_⟩
  · intro hst
    have hni : tk.state ≠ .inUse := by rcases hst with h | h <;> rw [h] <;> simp
    have hnc : tk.state ≠ .closed := by rcases hst with h | h <;> rw [h] <;> simp
    rw [FreeOp_default hfq hni hnc]
    refine ⟨rfl, ?_, ?_, ?_⟩
    · exact getElem_setState_self _ hgq
    · intro h' hne
      exact getElem_setState_ne _ _ hne
    · exact setState_closedTokens _ _ _
  · intro hst
    rw [FreeOp_inUse hfq hst]
    have hhL' : ht ∉ closedListOf { p with dirty := true } tk.id := by
      show ht ∉ closedListOf p tk.id
      rw [hid]
      exact hhL
    obtain ⟨hs2, hsh, hfree, hframe, hct, _, _, _, _⟩ := stopUsing_spec hfq hst hhL'
    refine ⟨rfl, ?_, ?_, ?_, ?_⟩
    · have hx := getElem_setState_self .free hsh
      exact hx
    · intro h' hm
      have hne : h' ≠ ht := by
        intro hhh
        subst hhh
        exact hhL hm
      show ((Pool.stopUsing { p with dirty := true } id).1.setState ht .free).stateAt h'
        = some .free
      rw [stateAt_setState_ne _ _ hne]
      refine hfree h' ?_ (hS h' hm)
      show h' ∈ closedListOf p tk.id
      rw [hid]
      exact hm
    · show lookupA ((Pool.stopUsing { p with dirty := true } id).1.setState ht .free).closedTokens
        id = none
      rw [setState_closedTokens, hct, show tk.id = id from hid]
      exact lookupA_eraseA_self _ _
    · intro h' hnm hne
      show ((Pool.stopUsing { p with dirty := true } id).1.setState ht .free).store[h']?
        = p.store[h']?
      rw [getElem_setState_ne _ _ hne]
      refine hframe h' ?_ hne
      show h' ∉ closedListOf p tk.id
      rw [hid]
      exact hnm
  · intro hst
    exact FreeOp_closed hfq hst

/-- The behavior of `StopUsing(id)` for a known token at handle `ht`: it
succeeds exactly on an `InUse` token, which ends `Allocated` while every
recorded sibling is set `Free` (whatever its earlier life) and the
`closedBy[id]` entry is removed, other entries and tokens untouched; any
other pre-state fails with the bad-state error and changes nothing. -/
def StopUsingSpec (p : Pool) (id : String) (ht : Nat) (tk : Token) : Prop :=
  (tk.state = .inUse →
    (p.StopUsingOp id).2 = none ∧
    (p.StopUsingOp id).1.store[ht]? = some { tk with state := .allocated } ∧
    (∀ h' ∈ closedListOf p id, (p.StopUsingOp id).1.stateAt h' = some .free) ∧
    lookupA (p.StopUsingOp id).1.closedTokens id = none ∧
    (∀ k : String, k ≠ id →
      lookupA (p.StopUsingOp id).1.closedTokens k = lookupA p.closedTokens k) ∧
    (∀ h' : Nat, h' ∉ closedListOf p id → h' ≠ ht →
      (p.StopUsingOp id).1.store[h']? = p.store[h']?)) ∧
  (tk.state ≠ .inUse →
    p.StopUsingOp id = ({ p with dirty := true }, some .notInUse))

/-- C5: `StopUsing` succeeds exactly from `InUse`, frees every recorded
sibling regardless of its earlier state, clears the entry, and fails with
a bad-state error (changing nothing) from any other pre-state. -/
theorem c5_stopUsing_table
    (p : Pool) (id : String) (ht : Nat) (tk : Token)
    (hlk : lookupA p.tokens id = some ht) (hg : p.store[ht]? = some tk)
    (hid : tk.id = id)
    (hhL : ht ∉ closedListOf p id)
    (hS : ∀ h' ∈ closedListOf p id, (p.store[h']?).isSome = true) :
    StopUsingSpec p id ht tk := by
  have hfq : Pool.findTok { p with dirty := true } id = some (ht, tk) :=
    findTok_of hlk hg
  constructor
  · intro hst
    have hhL' : ht ∉ closedListOf { p with dirty := true } tk.id := by
      show ht ∉ closedListOf p tk.id
      rw [hid]
      exact hhL
    obtain ⟨hs2, hsh, hfree, hframe, hct, _, _, _, _⟩ := stopUsing_spec hfq hst hhL'
    rw [StopUsingOp_eq]
    refine ⟨hs2, hsh, ?_, ?_, ?_, ?_⟩
    · intro h' hm
      refine hfree h' ?_ (hS h' hm)
      show h' ∈ closedListOf p tk.id
      rw [hid]
      exact hm
    · rw [hct, show tk.id = id from hid]
      exact lookupA_eraseA_self _ _
    · intro k hk
      rw [hct, show tk.id = id from hid, lookupA_eraseA_ne _ (Ne.symm hk)]
    · intro h' hnm hne
      refine hframe h' ?_ hne
      show h' ∉ closedListOf p tk.id
      rw [hid]
      exact hnm
  · intro hst
    rw [StopUsingOp_eq]
    exact stopUsing_fail_not_inUse hfq hst

/-- `cexPool0` after `Use("1", [A,B])`: token `1` is `InUse`, token `2`
(first `free` token of name `B`) is `Closed` and recorded in
`closedBy["1"]`. -/
def cexPool1 : Pool := (cexPool0.UseOp "1" ["A", "B"]).1

/-- Witness for C3: the transition table evaluated on the concrete pool
`cexPool1` at the `InUse` token `1`. -/
theorem c3_allocate_table_witness :
    (lookupA cexPool1.tokens "1" = some 0 ∧
     cexPool1.store[0]? = some ⟨"1", "A", .inUse⟩ ∧
     (0 : Nat) ∉ closedListOf cexPool1 "1" ∧
     (∀ h' ∈ closedListOf cexPool1 "1", (cexPool1.store[h']?).isSome = true)) ∧
    AllocateSpec cexPool1 "1" 0 ⟨"1", "A", .inUse⟩ :=
  ⟨by decide,
   c3_allocate_table cexPool1 "1" 0 ⟨"1", "A", .inUse⟩
     (by decide) (by decide) rfl (by decide) (by decide)⟩

/-- Witness for C4: the transition table evaluated on the concrete pool
`cexPool1` at the `InUse` token `1`. -/
theorem c4_free_table_witness :
    (lookupA cexPool1.tokens "1" = some 0 ∧
     cexPool1.store[0]? = some ⟨"1", "A", .inUse⟩ ∧
     (0 : Nat) ∉ closedListOf cexPool1 "1" ∧
     (∀ h' ∈ closedListOf cexPool1 "1", (cexPool1.store[h']?).isSome = true)) ∧
    FreeSpec cexPool1 "1" 0 ⟨"1", "A", .inUse⟩ :=
  ⟨by decide,
   c4_free_table cexPool1 "1" 0 ⟨"1", "A", .inUse⟩
     (by decide) (by decide) rfl (by decide) (by decide)⟩

/-- Witness for C5: the behavior evaluated on the concrete pool `cexPool1`
at the `InUse` token `1`. -/
theorem c5_stopUsing_table_witness :
    (lookupA cexPool1.tokens "1" = some 0 ∧
     cexPool1.store[0]? = some ⟨"1", "A", .inUse⟩ ∧
     (0 : Nat) ∉ closedListOf cexPool1 "1" ∧
     (∀ h' ∈ closedListOf cexPool1 "1", (cexPool1.store[h']?).isSome = true)) ∧
    StopUsingSpec cexPool1 "1" 0 ⟨"1", "A", .inUse⟩ :=
  ⟨by decide,
   c5_stopUsing_table cexPool1 "1" 0 ⟨"1", "A", .inUse⟩
     (by decide) (by decide) rfl (by decide) (by decide)⟩

/-- Witness for C7: the round trip evaluated on the concrete pool
`cexPool0` with `Use("1", [A,B]); StopUsing("1")`. -/
theorem c7_use_stopUsing_round_trip_witness :
    (lookupA cexPool0.tokens "1" = some 0 ∧
     cexPool0.store[0]? = some ⟨"1", "A", .free⟩ ∧
     lookupA cexPool0.closedTokens "1" = none) ∧
    ((cexPool0.UseOp "1" ["A", "B"]).2 = none ∧
     ((cexPool0.UseOp "1" ["A", "B"]).1.StopUsingOp "1").2 = none ∧
     ((cexPool0.UseOp "1" ["A", "B"]).1.StopUsingOp "1").1.stateAt 0 = some .allocated ∧
     (∀ h' ∈ closedListOf (cexPool0.UseOp "1" ["A", "B"]).1 "1",
       ((cexPool0.UseOp "1" ["A", "B"]).1.StopUsingOp "1").1.stateAt h' = some .free) ∧
     lookupA ((cexPool0.UseOp "1" ["A", "B"]).1.StopUsingOp "1").1.closedTokens "1"
       = none ∧
     (∀ h' : Nat, h' ∉ closedListOf (cexPool0.UseOp "1" ["A", "B"]).1 "1" → h' ≠ 0 →
       ((cexPool0.UseOp "1" ["A", "B"]).1.StopUsingOp "1").1.store[h']?
         = cexPool0.store[h']?)) :=
  ⟨⟨by decide, by decide, by decide⟩,
   c7_use_stopUsing_round_trip cexPool0 "1" ["A", "B"] 0 ⟨"1", "A", .free⟩
     (by decide) (by decide) rfl (Or.inl rfl) (by decide)⟩

theorem stopUsing_snd_inUse {p : Pool} {id : String} {h : Nat} {tk : Token}
    (hf : p.findTok id = some (h, tk)) (hs : tk.state = .inUse) :
    (p.stopUsing id).2 = none := by
  unfold Pool.stopUsing
  rw [hf]
  simp only [if_pos hs]

/-- C9: error atomicity — whenever `Find`, `Allocate`, `Free`, `Use` or
`StopUsing` returns an error, the resulting pool is the input pool with
only the `dirty` flag set: no token id, name or state changes and
`closedTokens` is untouched.  (`Find` signals its error by returning no
name.) -/
theorem c9_error_atomicity (p : Pool) (id : String) (names : List String) :
    ((p.FindOp id).2 = none → (p.FindOp id).1 = { p with dirty := true }) ∧
    (∀ e, (p.AllocateOp id).2 = some e → (p.AllocateOp id).1 = { p with dirty := true }) ∧
    (∀ e, (p.FreeOp id).2 = some e → (p.FreeOp id).1 = { p with dirty := true }) ∧
    (∀ e, (p.UseOp id names).2 = some e → (p.UseOp id names).1 = { p with dirty := true }) ∧
    (∀ e, (p.StopUsingOp id).2 = some e → (p.StopUsingOp id).1 = { p with dirty := true }) := by
  refine ⟨?_, ?_, ?_, ?_, ?_⟩
  · intro he
    cases hf : Pool.findTok { p with dirty := true } id with
    | none => rw [FindOp_unknown hf]
    | some pr =>
      obtain ⟨h, tk⟩ := pr
      rw [FindOp_known hf] at he
      simp at he
  · intro e he
    cases hf : Pool.findTok { p with dirty := true } id with
    | none => rw [AllocateOp_unknown hf]
    | some pr =>
      obtain ⟨h, tk⟩ := pr
      by_cases hiu : tk.state = .inUse
      · rw [AllocateOp_inUse hf hiu] at he
        rw [stopUsing_snd_inUse hf hiu] at he
        simp at he
      · by_cases hcl : tk.state = .closed
        · rw [AllocateOp_closed hf hcl]
        · rw [AllocateOp_default hf hiu hcl] at he
          simp at he
  · intro e he
    cases hf : Pool.findTok { p with dirty := true } id with
    | none => rw [FreeOp_unknown hf]
    | some pr =>
      obtain ⟨h, tk⟩ := pr
      by_cases hiu : tk.state = .inUse
      · rw [FreeOp_inUse hf hiu] at he
        simp at he
      · by_cases hcl : tk.state = .closed
        · rw [FreeOp_closed hf hcl] at he
          simp at he
        · rw [FreeOp_default hf hiu hcl] at he
          simp at he
  · intro e he
    cases hf : Pool.findTok { p with dirty := true } id with
    | none => rw [UseOp_unknown hf]
    | some pr =>
      obtain ⟨h, tk⟩ := pr
      by_cases hbad : tk.state = .inUse ∨ tk.state = .closed
      · rw [UseOp_bad hf hbad]
      · rw [UseOp_ok hf hbad] at he
        simp at he
  · intro e he
    rw [StopUsingOp_eq] at he ⊢
    cases hf : Pool.findTok { p with dirty := true } id with
    | none => rw [stopUsing_fail_unknown hf]
    | some pr =>
      obtain ⟨h, tk⟩ := pr
      by_cases hiu : tk.state = .inUse
      · rw [stopUsing_snd_inUse hf hiu] at he
        simp at he
      · rw [stopUsing_fail_not_inUse hf hiu]

/-- Witness for C9: `Use` on the already-`InUse` token `1` of `cexPool1`
fails with the bad-state error and leaves every token unchanged. -/
theorem c9_error_atomicity_witness :
    (cexPool1.UseOp "1" ["A"]).2 = some (.badState .inUse) ∧
    (cexPool1.UseOp "1" ["A"]).1 = { cexPool1 with dirty := true } :=
  ⟨by decide,
   (c9_error_atomicity cexPool1 "1" ["A"]).2.2.2.1 (.badState .inUse) (by decide)⟩

/-- C10: `AddListener` changes only the listener count — iterating it any
number of times leaves the token store, all three indices and the `dirty`
flag untouched, so a `Restore` after any number of `AddListener` calls (on
an otherwise untouched pool) still succeeds. -/
theorem c10_addListener_frame (p : Pool) (n : Nat) (m : List (String × List String)) :
    (Pool.addListener^[n] p).store = p.store ∧
    (Pool.addListener^[n] p).tokens = p.tokens ∧
    (Pool.addListener^[n] p).tokensByNames = p.tokensByNames ∧
    (Pool.addListener^[n] p).closedTokens = p.closedTokens ∧
    (Pool.addListener^[n] p).dirty = p.dirty ∧
    (Pool.addListener^[n] p).listeners = p.listeners + n ∧
    (p.dirty = false → ((Pool.addListener^[n] p).RestoreOp m).2 = none) := by
  have key : (Pool.addListener^[n] p).store = p.store ∧
      (Pool.addListener^[n] p).tokens = p.tokens ∧
      (Pool.addListener^[n] p).tokensByNames = p.tokensByNames ∧
      (Pool.addListener^[n] p).closedTokens = p.closedTokens ∧
      (Pool.addListener^[n] p).dirty = p.dirty ∧
      (Pool.addListener^[n] p).listeners = p.listeners + n := by
    induction n with
    | zero => exact ⟨rfl, rfl, rfl, rfl, rfl, rfl⟩
    | succ k ih =>
      obtain ⟨i1, i2, i3, i4, i5, i6⟩ := ih
      rw [Function.iterate_succ_apply']
      exact ⟨i1, i2, i3, i4, i5, by
        show (Pool.addListener^[k] p).listeners + 1 = p.listeners + (k + 1)
        rw [i6]
        ring⟩
  obtain ⟨k1, k2, k3, k4, k5, k6⟩ := key
  refine ⟨k1, k2, k3, k4, k5, k6, ?_⟩
  intro hd
  unfold Pool.RestoreOp
  rw [show (Pool.addListener^[n] p).dirty = false by rw [k5]; exact hd]
  simp

/-- Witness for C10: two `AddListener` calls on the fresh pool `cexPool0`
leave it restorable. -/
theorem c10_addListener_frame_witness :
    cexPool0.dirty = false ∧
    ((Pool.addListener^[2] cexPool0).RestoreOp [("A", ["x"])]).2 = none ∧
    (Pool.addListener^[2] cexPool0).listeners = cexPool0.listeners + 2 :=
  ⟨rfl,
   (c10_addListener_frame cexPool0 2 [("A", ["x"])]).2.2.2.2.2.2 rfl,
   (c10_addListener_frame cexPool0 2 [("A", ["x"])]).2.2.2.2.2.1⟩

theorem rename_tokensByNames (p : Pool) (h : Nat) (i : String) :
    (p.rename h i).tokensByNames = p.tokensByNames := by
  unfold Pool.rename
  cases hg : p.store[h]? <;> simp

theorem rename_closedTokens (p : Pool) (h : Nat) (i : String) :
    (p.rename h i).closedTokens = p.closedTokens := by
  unfold Pool.rename
  cases hg : p.store[h]? <;> simp

theorem rename_dirty (p : Pool) (h : Nat) (i : String) :
    (p.rename h i).dirty = p.dirty := by
  unfold Pool.rename
  cases hg : p.store[h]? <;> simp

theorem rename_store_length (p : Pool) (h : Nat) (i : String) :
    (p.rename h i).store.length = p.store.length := by
  unfold Pool.rename
  cases hg : p.store[h]? <;> simp

theorem rename_store_frame (p : Pool) {h h' : Nat} (i : String) (hne : h' ≠ h) :
    (p.rename h i).store[h']? = p.store[h']? := by
  unfold Pool.rename
  cases hg : p.store[h]? <;> simp [List.getElem?_set_ne (Ne.symm hne)]

theorem rename_store_self {p : Pool} {h : Nat} {tk : Token} (i : String)
    (hg : p.store[h]? = some tk) :
    (p.rename h i).store[h]? = some { tk with id := i, state := .allocated } := by
  unfold Pool.rename
  rw [hg]
  show (p.store.set h { tk with id := i, state := .allocated })[h]? = _
  rw [List.getElem?_set_self', hg]
  rfl

theorem restoreEntry_tokensByNames (ids : List String) (hs : List Nat) (p : Pool) :
    (restoreEntry p ids hs).tokensByNames = p.tokensByNames := by
  induction ids generalizing hs p with
  | nil => cases hs <;> rfl
  | cons i ids ih =>
    cases hs with
    | nil => rfl
    | cons h hs => rw [restoreEntry, ih, rename_tokensByNames]

theorem restoreEntry_closedTokens (ids : List String) (hs : List Nat) (p : Pool) :
    (restoreEntry p ids hs).closedTokens = p.closedTokens := by
  induction ids generalizing hs p with
  | nil => cases hs <;> rfl
  | cons i ids ih =>
    cases hs with
    | nil => rfl
    | cons h hs => rw [restoreEntry, ih, rename_closedTokens]

theorem restoreEntry_dirty (ids : List String) (hs : List Nat) (p : Pool) :
    (restoreEntry p ids hs).dirty = p.dirty := by
  induction ids generalizing hs p with
  | nil => cases hs <;> rfl
  | cons i ids ih =>
    cases hs with
    | nil => rfl
    | cons h hs => rw [restoreEntry, ih, rename_dirty]

theorem restoreEntry_store_length (ids : List String) (hs : List Nat) (p : Pool) :
    (restoreEntry p ids hs).store.length = p.store.length := by
  induction ids generalizing hs p with
  | nil => cases hs <;> rfl
  | cons i ids ih =>
    cases hs with
    | nil => rfl
    | cons h hs => rw [restoreEntry, ih, rename_store_length]

theorem restoreEntry_frame {ids : List String} {hs : List Nat} {h' : Nat} (p : Pool)
    (hnm : h' ∉ hs.take ids.length) :
    (restoreEntry p ids hs).store[h']? = p.store[h']? := by
  induction ids generalizing hs p with
  | nil => cases hs <;> rfl
  | cons i ids ih =>
    cases hs with
    | nil => rfl
    | cons h hs =>
      rw [List.length_cons, List.take_succ_cons, List.mem_cons] at hnm
      push_neg at hnm
      rw [restoreEntry, ih _ hnm.2, rename_store_frame _ _ hnm.1]

theorem restoreEntry_write {ids : List String} {hs : List Nat} {i : Nat}
    {id0 : String} {h0 : Nat} (p : Pool)
    (hnd : hs.Nodup)
    (hS : ∀ h ∈ hs, (p.store[h]?).isSome = true)
    (hid : ids[i]? = some id0) (hh : hs[i]? = some h0) :
    ∃ tk, p.store[h0]? = some tk ∧
      (restoreEntry p ids hs).store[h0]?
        = some { tk with id := id0, state := .allocated } := by
  induction ids generalizing hs p i with
  | nil => simp at hid
  | cons j ids ih =>
    cases hs with
    | nil => simp at hh
    | cons h hs =>
      rw [List.nodup_cons] at hnd
      cases i with
      | zero =>
        have hj : j = id0 := by simpa using hid
        have hhh : h = h0 := by simpa using hh
        rcases Option.isSome_iff_exists.mp (hS h (List.mem_cons_self _ _)) with ⟨tk, hg⟩
        refine ⟨tk, by rw [← hhh]; exact hg, ?_⟩
        rw [← hhh, ← hj, restoreEntry,
          restoreEntry_frame _ (fun hmem => hnd.1 (List.mem_of_mem_take hmem)),
          rename_store_self _ hg]
      | succ k =>
        simp only [List.getElem?_cons_succ] at hid hh
        have hne : h0 ≠ h := by
          intro hhh
          subst hhh
          exact hnd.1 (List.getElem?_mem hh)
        have hS' : ∀ x ∈ hs, ((p.rename h j).store[x]?).isSome = true := by
          intro x hx
          exact getElem_isSome_of_length (rename_store_length p h j)
            (hS x (List.mem_cons_of_mem _ hx))
        obtain ⟨tk, htk, hfin⟩ := ih (p.rename h j) hnd.2 hS' hid hh
        rw [rename_store_frame _ _ hne] at htk
        exact ⟨tk, htk, hfin⟩

/-- The arena positions rewritten by `Restore` with argument `m`: for each
entry, the first `min (|ids|) (|tokens of that name|)` handles of the name. -/
def renamedHandles (p : Pool) (m : List (String × List String)) : List Nat :=
  (m.map (fun e => ((lookupA p.tokensByNames e.1).getD []).take e.2.length)).flatten

theorem renamedHandles_congr {p q : Pool} (m : List (String × List String))
    (hb : q.tokensByNames = p.tokensByNames) :
    renamedHandles q m = renamedHandles p m := by
  unfold renamedHandles
  simp only [hb]

theorem restoreLoop_tokensByNames (m : List (String × List String)) (p : Pool) :
    (restoreLoop p m).tokensByNames = p.tokensByNames := by
  induction m generalizing p with
  | nil => rfl
  | cons e rest ih =>
    obtain ⟨name, ids⟩ := e
    rw [restoreLoop]
    cases lookupA p.tokensByNames name with
    | none => exact ih p
    | some hs => rw [ih, restoreEntry_tokensByNames]

theorem restoreLoop_dirty (m : List (String × List String)) (p : Pool) :
    (restoreLoop p m).dirty = p.dirty := by
  induction m generalizing p with
  | nil => rfl
  | cons e rest ih =>
    obtain ⟨name, ids⟩ := e
    rw [restoreLoop]
    cases lookupA p.tokensByNames name with
    | none => exact ih p
    | some hs => rw [ih, restoreEntry_dirty]

theorem restoreLoop_store_length (m : List (String × List String)) (p : Pool) :
    (restoreLoop p m).store.length = p.store.length := by
  induction m generalizing p with
  | nil => rfl
  | cons e rest ih =>
    obtain ⟨name, ids⟩ := e
    rw [restoreLoop]
    cases lookupA p.tokensByNames name with
    | none => exact ih p
    | some hs => rw [ih, restoreEntry_store_length]

theorem restoreLoop_frame {m : List (String × List String)} {h' : Nat} (p : Pool)
    (hnm : h' ∉ renamedHandles p m) :
    (restoreLoop p m).store[h']? = p.store[h']? := by
  induction m generalizing p with
  | nil => rfl
  | cons e rest ih =>
    obtain ⟨name, ids⟩ := e
    have hsplit : h' ∉ ((lookupA p.tokensByNames name).getD []).take ids.length ∧
        h' ∉ renamedHandles p rest := by
      constructor <;> intro hx <;> apply hnm
      · exact List.mem_flatten.mpr
          ⟨_, List.mem_map.mpr ⟨(name, ids), List.mem_cons_self _ _, rfl⟩, hx⟩
      · rcases List.mem_flatten.mp hx with ⟨l, hl, hxl⟩
        rcases List.mem_map.mp hl with ⟨e2, he2, rfl⟩
        exact List.mem_flatten.mpr
          ⟨_, List.mem_map.mpr ⟨e2, List.mem_cons_of_mem _ he2, rfl⟩, hxl⟩
    rw [restoreLoop]
    cases hlk : lookupA p.tokensByNames name with
    | none => exact ih p hsplit.2
    | some hs =>
      have hq : h' ∉ renamedHandles (restoreEntry p ids hs) rest := by
        rw [renamedHandles_congr rest (restoreEntry_tokensByNames ids hs p)]
        exact hsplit.2
      rw [ih _ hq]
      refine restoreEntry_frame p ?_
      have := hsplit.1
      rw [hlk] at this
      exact this

theorem restoreLoop_write {m : List (String × List String)} (p : Pool)
    (hkeys : (m.map Prod.fst).Nodup)
    (hnd : ∀ e ∈ m, ((lookupA p.tokensByNames e.1).getD []).Nodup)
    (hS : ∀ e ∈ m, ∀ h ∈ (lookupA p.tokensByNames e.1).getD [],
      (p.store[h]?).isSome = true)
    (hdisj : ∀ e1 ∈ m, ∀ e2 ∈ m, e1.1 ≠ e2.1 →
      ∀ h ∈ (lookupA p.tokensByNames e1.1).getD [],
        h ∉ (lookupA p.tokensByNames e2.1).getD []) :
    ∀ e ∈ m, ∀ hs, lookupA p.tokensByNames e.1 = some hs →
      ∀ (i : Nat) (id0 : String) (h0 : Nat), e.2[i]? = some id0 → hs[i]? = some h0 →
        ∃ tk : Token, p.store[h0]? = some tk ∧
          (restoreLoop p m).store[h0]? = some { tk with id := id0, state := .allocated } := by
  induction m generalizing p with
  | nil => intro e he; simp at he
  | cons e1 rest ih =>
    intro e he hs hlk i id0 h0 hid hh
    rw [List.map_cons, List.nodup_cons] at hkeys
    rcases List.mem_cons.mp he with heq | he2
    · -- the entry being written is the head entry
      subst heq
      obtain ⟨name, ids⟩ := e
      have hid2 : ids[i]? = some id0 := hid
      have hlk2 : lookupA p.tokensByNames name = some hs := hlk
      rw [restoreLoop, hlk2]
      have hnd1 := hnd (name, ids) (List.mem_cons_self _ _)
      rw [show lookupA p.tokensByNames (name, ids).1 = some hs from hlk2] at hnd1
      simp only [Option.getD_some] at hnd1
      have hS1 := hS (name, ids) (List.mem_cons_self _ _)
      rw [show lookupA p.tokensByNames (name, ids).1 = some hs from hlk2] at hS1
      simp only [Option.getD_some] at hS1
      obtain ⟨tk, htk, hq⟩ := restoreEntry_write p hnd1 hS1 hid2 hh
      refine ⟨tk, htk, ?_⟩
      rw [restoreLoop_frame _ ?_]
      · exact hq
      · rw [renamedHandles_congr rest (restoreEntry_tokensByNames ids hs p)]
        intro hx
        rcases List.mem_flatten.mp hx with ⟨l, hl, hxl⟩
        rcases List.mem_map.mp hl with ⟨e2, he2, rfl⟩
        have hne : (name, ids).1 ≠ e2.1 := by
          intro hhh
          exact hkeys.1 (by rw [hhh]; exact List.mem_map.mpr ⟨e2, he2, rfl⟩)
        have hmem0 : h0 ∈ (lookupA p.tokensByNames (name, ids).1).getD [] := by
          rw [show lookupA p.tokensByNames (name, ids).1 = some hs from hlk2]
          exact List.getElem?_mem hh
        exact hdisj (name, ids) (List.mem_cons_self _ _) e2 (List.mem_cons_of_mem _ he2)
          hne h0 hmem0 (List.mem_of_mem_take hxl)
    · -- the entry being written is in the tail
      obtain ⟨name1, ids1⟩ := e1
      rw [restoreLoop]
      cases hlk1 : lookupA p.tokensByNames name1 with
      | none =>
        exact ih p hkeys.2 (fun e2 h2 => hnd e2 (List.mem_cons_of_mem _ h2))
          (fun e2 h2 => hS e2 (List.mem_cons_of_mem _ h2))
          (fun e2 h2 e3 h3 => hdisj e2 (List.mem_cons_of_mem _ h2) e3
            (List.mem_cons_of_mem _ h3))
          e he2 hs hlk i id0 h0 hid hh
      | some hs1 =>
        have hbn : (restoreEntry p ids1 hs1).tokensByNames = p.tokensByNames :=
          restoreEntry_tokensByNames ids1 hs1 p
        have hlen : (restoreEntry p ids1 hs1).store.length = p.store.length :=
          restoreEntry_store_length ids1 hs1 p
        have hne1 : e.1 ≠ name1 := by
          intro hhh
          exact hkeys.1 (by rw [← hhh]; exact List.mem_map.mpr ⟨e, he2, rfl⟩)
        obtain ⟨tk, htk, hfin⟩ := ih (restoreEntry p ids1 hs1) hkeys.2
          (fun e2 h2 => by
            rw [hbn]
            exact hnd e2 (List.mem_cons_of_mem _ h2))
          (fun e2 h2 x hx => by
            rw [hbn] at hx
            exact getElem_isSome_of_length hlen
              (hS e2 (List.mem_cons_of_mem _ h2) x hx))
          (fun e2 h2 e3 h3 hne x hx => by
            rw [hbn] at hx ⊢
            exact hdisj e2 (List.mem_cons_of_mem _ h2) e3 (List.mem_cons_of_mem _ h3)
              hne x hx)
          e he2 hs (by rw [hbn]; exact hlk) i id0 h0 hid hh
        refine ⟨tk, ?_, hfin⟩
        rw [← htk]
        symm
        refine restoreEntry_frame p ?_
        intro hmem
        have hm1 : h0 ∈ (lookupA p.tokensByNames e.1).getD [] := by
          rw [hlk]
          exact List.getElem?_mem hh
        have := hdisj e (List.mem_cons_of_mem _ he2) (name1, ids1) (List.mem_cons_self _ _) hne1 h0 hm1
        rw [hlk1] at this
        exact this (List.mem_of_mem_take hmem)

theorem stopUsing_dirty (p : Pool) (id : String) : (p.stopUsing id).1.dirty = p.dirty := by
  unfold Pool.stopUsing
  cases hf : p.findTok id with
  | none => rfl
  | some pr =>
    obtain ⟨h, tk⟩ := pr
    by_cases hs : tk.state = .inUse
    · simp only [if_pos hs]
      show (freeAll (p.setState h .allocated) _).dirty = p.dirty
      rw [freeAll_dirty, setState_dirty]
    · simp only [if_neg hs]

theorem useLoop_dirty (tokName tokId : String) (names : List String) (p : Pool) :
    (useLoop tokName tokId names p).dirty = p.dirty := by
  induction names generalizing p with
  | nil => rfl
  | cons n ns ih =>
    by_cases hn : n = tokName
    · rw [useLoop, if_pos hn]
      exact ih p
    · rw [useLoop, if_neg hn]
      cases hfc : p.findToClose n with
      | none => exact ih p
      | some h => rw [ih, pushClosed_dirty, setState_dirty]

theorem TokensOp_dirty (p : Pool) : p.TokensOp.1.dirty = true := rfl

theorem FindOp_dirty (p : Pool) (id : String) : (p.FindOp id).1.dirty = true := by
  cases hf : Pool.findTok { p with dirty := true } id with
  | none => rw [FindOp_unknown hf]
  | some pr =>
    obtain ⟨h, tk⟩ := pr
    rw [FindOp_known hf]

theorem AllocateOp_dirty (p : Pool) (id : String) : (p.AllocateOp id).1.dirty = true := by
  cases hf : Pool.findTok { p with dirty := true } id with
  | none => rw [AllocateOp_unknown hf]
  | some pr =>
    obtain ⟨h, tk⟩ := pr
    by_cases hiu : tk.state = .inUse
    · rw [AllocateOp_inUse hf hiu, stopUsing_dirty]
    · by_cases hcl : tk.state = .closed
      · rw [AllocateOp_closed hf hcl]
      · rw [AllocateOp_default hf hiu hcl]
        show (Pool.setState { p with dirty := true } h .allocated).dirty = true
        rw [setState_dirty]

theorem FreeOp_dirty (p : Pool) (id : String) : (p.FreeOp id).1.dirty = true := by
  cases hf : Pool.findTok { p with dirty := true } id with
  | none => rw [FreeOp_unknown hf]
  | some pr =>
    obtain ⟨h, tk⟩ := pr
    by_cases hiu : tk.state = .inUse
    · rw [FreeOp_inUse hf hiu]
      show ((Pool.stopUsing { p with dirty := true } id).1.setState h .free).dirty = true
      rw [setState_dirty, stopUsing_dirty]
    · by_cases hcl : tk.state = .closed
      · rw [FreeOp_closed hf hcl]
      · rw [FreeOp_default hf hiu hcl]
        show (Pool.setState { p with dirty := true } h .free).dirty = true
        rw [setState_dirty]

theorem UseOp_dirty (p : Pool) (id : String) (names : List String) :
    (p.UseOp id names).1.dirty = true := by
  cases hf : Pool.findTok { p with dirty := true } id with
  | none => rw [UseOp_unknown hf]
  | some pr =>
    obtain ⟨h, tk⟩ := pr
    by_cases hbad : tk.state = .inUse ∨ tk.state = .closed
    · rw [UseOp_bad hf hbad]
    · rw [UseOp_ok hf hbad]
      show (useLoop tk.name tk.id names _).dirty = true
      rw [useLoop_dirty, setState_dirty]

theorem StopUsingOp_dirty (p : Pool) (id : String) : (p.StopUsingOp id).1.dirty = true := by
  rw [StopUsingOp_eq, stopUsing_dirty]

theorem RestoreOp_dirty (p : Pool) (m : List (String × List String)) :
    (p.RestoreOp m).1.dirty = true := by
  unfold Pool.RestoreOp
  by_cases hd : p.dirty
  · simp only [if_pos hd]
    exact hd
  · simp only [if_neg hd]
    rw [restoreLoop_dirty]

/-- The preconditions under which the positional description of `Restore`
is stated: distinct names in the argument, and name lists in the pool that
are duplicate-free, in range, and pairwise disjoint — all true of any pool
built by `NewPool`. -/
def RestoreOK (p : Pool) (m : List (String × List String)) : Prop :=
  (m.map Prod.fst).Nodup ∧
  (∀ e ∈ m, ((lookupA p.tokensByNames e.1).getD []).Nodup) ∧
  (∀ e ∈ m, ∀ h ∈ (lookupA p.tokensByNames e.1).getD [], (p.store[h]?).isSome = true) ∧
  (∀ e1 ∈ m, ∀ e2 ∈ m, e1.1 ≠ e2.1 →
    ∀ h ∈ (lookupA p.tokensByNames e1.1).getD [],
      h ∉ (lookupA p.tokensByNames e2.1).getD [])

/-- The behavior of `Restore(m)`: on a dirty pool it fails `AlreadyDirty`
changing nothing at all; on a fresh pool it succeeds, sets `dirty`, gives
the first `min (|ids|) (|tokens of the name|)` tokens of each given name
(in insertion order) the given ids and state `Allocated`, and touches no
other token; and a `Restore` after any `Restore` fails. -/
def RestoreSpec (p : Pool) (m : List (String × List String)) : Prop :=
  (p.dirty = true → p.RestoreOp m = (p, some .alreadyAccessed)) ∧
  (p.dirty = false →
    (p.RestoreOp m).2 = none ∧
    (p.RestoreOp m).1.dirty = true ∧
    (∀ e ∈ m, ∀ hs, lookupA p.tokensByNames e.1 = some hs →
      ∀ (i : Nat) (id0 : String) (h0 : Nat), e.2[i]? = some id0 → hs[i]? = some h0 →
        ∃ tk : Token, p.store[h0]? = some tk ∧
          (p.RestoreOp m).1.store[h0]? = some { tk with id := id0, state := .allocated }) ∧
    (∀ h' : Nat, h' ∉ renamedHandles p m → (p.RestoreOp m).1.store[h']? = p.store[h']?)) ∧
  (∀ m' : List (String × List String),
    ((p.RestoreOp m).1.RestoreOp m').2 = some .alreadyAccessed)

/-- Every public operation other than `AddListener` leaves the pool dirty,
so any of them (even a failed one) makes every later `Restore` fail. -/
def SetsDirty (p : Pool) : Prop :=
  ∀ (id : String) (names : List String) (m' : List (String × List String)),
    p.TokensOp.1.dirty = true ∧ (p.FindOp id).1.dirty = true ∧
    (p.AllocateOp id).1.dirty = true ∧ (p.FreeOp id).1.dirty = true ∧
    (p.UseOp id names).1.dirty = true ∧ (p.StopUsingOp id).1.dirty = true ∧
    (p.RestoreOp m').1.dirty = true

/-- C6: `Restore` succeeds exactly on a pool no listed public operation has
touched; on success it rewrites the first `min` tokens of each given name
positionally to the given ids with state `Allocated`; every listed
operation (including a failed one and a first `Restore`) sets `dirty`, and
any later `Restore` fails `AlreadyDirty` without changing anything. -/
theorem c6_restore_once (p : Pool) (m : List (String × List String))
    (hok : RestoreOK p m) : RestoreSpec p m ∧ SetsDirty p := by
  obtain ⟨hkeys, hnd, hS, hdisj⟩ := hok
  have hfail : ∀ q : Pool, q.dirty = true → ∀ m'' : List (String × List String),
      q.RestoreOp m'' = (q, some .alreadyAccessed) := by
    intro q hq m''
    unfold Pool.RestoreOp
    simp only [hq]
    rfl
  refine ⟨⟨?_, ?_, ?_⟩, ?_⟩
  · intro hd
    exact hfail p hd m
  · intro hd
    have hred : p.RestoreOp m = (restoreLoop { p with dirty := true } m, none) := by
      unfold Pool.RestoreOp
      simp only [hd]
      rfl
    rw [hred]
    refine ⟨rfl, ?_, ?_, ?_⟩
    · show (restoreLoop { p with dirty := true } m).dirty = true
      rw [restoreLoop_dirty]
    · intro e he hs hlk i id0 h0 hid hh
      exact restoreLoop_write { p with dirty := true } hkeys hnd hS hdisj
        e he hs hlk i id0 h0 hid hh
    · intro h' hnm
      exact restoreLoop_frame { p with dirty := true } hnm
  · intro m'
    rw [hfail _ (RestoreOp_dirty p m) m']
  · intro id names m'
    exact ⟨TokensOp_dirty p, FindOp_dirty p id, AllocateOp_dirty p id, FreeOp_dirty p id,
      UseOp_dirty p id names, StopUsingOp_dirty p id, RestoreOp_dirty p m'⟩

/-- Witness for C6: the spec evaluated at the fresh pool `cexPool0` and the
argument renaming one `A` token and clipping three given `B` ids to the
two `B` tokens. -/
theorem c6_restore_once_witness :
    RestoreOK cexPool0 [("A", ["x"]), ("B", ["y", "z", "w"])] ∧
    (RestoreSpec cexPool0 [("A", ["x"]), ("B", ["y", "z", "w"])] ∧ SetsDirty cexPool0) :=
  ⟨by unfold RestoreOK; decide,
   c6_restore_once cexPool0 [("A", ["x"]), ("B", ["y", "z", "w"])]
     (by unfold RestoreOK; decide)⟩

theorem find?_eq_filter_head {α : Type} (pr : α → Bool) (l : List α) :
    l.find? pr = (l.filter pr).head? := by
  induction l with
  | nil => rfl
  | cons a l ih =>
    by_cases h : pr a
    · rw [List.find?_cons_of_pos _ h, List.filter_cons_of_pos h]
      rfl
    · rw [List.find?_cons_of_neg _ (by simp [h]), List.filter_cons_of_neg (by simp [h])]
      exact ih

/-- Definition written from the spec's words (§4.1, selection policy for
`findToClose(n)`): scan `byName[n]` in insertion order and return the first
`Free` token; if none, scan again for the first `Allocated`; otherwise
none.  To be compared against the source's `Pool.findToClose`. -/
def specFindToClose (p : Pool) (n : String) : Option Nat :=
  match (((lookupA p.tokensByNames n).getD []).filter
      (fun h => p.stateAt h = some .free)).head? with
  | some h => some h
  | none =>
    (((lookupA p.tokensByNames n).getD []).filter
      (fun h => p.stateAt h = some .allocated)).head?

theorem findToClose_eq_spec (p : Pool) (n : String) :
    p.findToClose n = specFindToClose p n := by
  unfold Pool.findToClose specFindToClose
  rw [find?_eq_filter_head, find?_eq_filter_head]

/-- Definition written from the spec's words (§4.1 `Use`): walk `names`,
and for every name other than the used token's own name select one sibling
to close — preferring `Free`, else `Allocated`, else skip — closing it
immediately; return the final pool and the chronological list of closed
siblings, to be pushed into `closedBy[id]` afterwards. -/
def specUseLoop (tokName : String) : List String → Pool → Pool × List Nat
  | [], p => (p, [])
  | n :: ns, p =>
    if n = tokName then specUseLoop tokName ns p
    else
      match specFindToClose p n with
      | none => specUseLoop tokName ns p
      | some h =>
        ((specUseLoop tokName ns (p.setState h .closed)).1,
         h :: (specUseLoop tokName ns (p.setState h .closed)).2)

/-- Push each closed sibling into `closedBy[id]`, in order. -/
def pushAll (c : List (String × List Nat)) (id : String) : List Nat → List (String × List Nat)
  | [] => c
  | h :: hs => pushAll (insertA c id (((lookupA c id).getD []) ++ [h])) id hs

/-- Definition written from the spec's words (§4.1 `Use`): fails `BadState`
when the pre-state is `InUse` or `Closed` (after the unknown-id check);
otherwise marks the token `InUse`, selects at most one sibling per other
name in `names` by the two-pass scan, and pushes the closed siblings into
`closedBy[id]`.  To be compared against the source's `Pool.UseOp`. -/
def specUse (p : Pool) (id : String) (names : List String) : Pool × Option PoolErr :=
  match Pool.findTok { p with dirty := true } id with
  | none => ({ p with dirty := true }, some .unknownId)
  | some (h, tk) =>
    if tk.state = .inUse ∨ tk.state = .closed then
      ({ p with dirty := true }, some (.badState tk.state))
    else
      ({ (specUseLoop tk.name names (Pool.setState { p with dirty := true } h .inUse)).1 with
          closedTokens := pushAll
            (specUseLoop tk.name names
              (Pool.setState { p with dirty := true } h .inUse)).1.closedTokens
            tk.id
            (specUseLoop tk.name names
              (Pool.setState { p with dirty := true } h .inUse)).2 },
        none)

theorem findToClose_override (q : Pool) (c : List (String × List Nat)) (n : String) :
    Pool.findToClose { q with closedTokens := c } n = q.findToClose n := rfl

theorem specFindToClose_override (q : Pool) (c : List (String × List Nat)) (n : String) :
    specFindToClose { q with closedTokens := c } n = specFindToClose q n := rfl

theorem setState_override (q : Pool) (c : List (String × List Nat)) (h : Nat) (s : TState) :
    Pool.setState { q with closedTokens := c } h s
      = { q.setState h s with closedTokens := c } := by
  unfold Pool.setState
  show (match q.store[h]? with
    | none => ({ q with closedTokens := c } : Pool)
    | some tk =>
      { ({ q with closedTokens := c } : Pool) with
        store := q.store.set h { tk with state := s } }) = _
  cases hg : q.store[h]? <;> rfl

theorem specUseLoop_override (tokName : String) (names : List String) :
    ∀ (q : Pool) (c : List (String × List Nat)),
    specUseLoop tokName names { q with closedTokens := c }
      = ({ (specUseLoop tokName names q).1 with closedTokens := c },
         (specUseLoop tokName names q).2) := by
  induction names with
  | nil => intro q c; rfl
  | cons n ns ih =>
    intro q c
    by_cases hn : n = tokName
    · rw [specUseLoop, if_pos hn, specUseLoop, if_pos hn]
      exact ih q c
    · rw [specUseLoop, if_neg hn, specUseLoop, if_neg hn, specFindToClose_override]
      cases hfc : specFindToClose q n with
      | none => exact ih q c
      | some h =>
        simp only []
        rw [setState_override, ih (q.setState h .closed) c]

theorem specUseLoop_closedTokens (tokName : String) (names : List String) :
    ∀ p : Pool, (specUseLoop tokName names p).1.closedTokens = p.closedTokens := by
  induction names with
  | nil => intro p; rfl
  | cons n ns ih =>
    intro p
    by_cases hn : n = tokName
    · rw [specUseLoop, if_pos hn]
      exact ih p
    · rw [specUseLoop, if_neg hn]
      cases hfc : specFindToClose p n with
      | none => exact ih p
      | some h =>
        show (specUseLoop tokName ns (p.setState h .closed)).1.closedTokens = _
        rw [ih, setState_closedTokens]

theorem useLoop_eq_specUseLoop (tokName tokId : String) (names : List String) :
    ∀ p : Pool,
    useLoop tokName tokId names p
      = { (specUseLoop tokName names p).1 with
          closedTokens := pushAll p.closedTokens tokId (specUseLoop tokName names p).2 } := by
  induction names with
  | nil => intro p; rfl
  | cons n ns ih =>
    intro p
    by_cases hn : n = tokName
    · rw [useLoop, if_pos hn, specUseLoop, if_pos hn]
      exact ih p
    · rw [useLoop, if_neg hn, specUseLoop, if_neg hn, findToClose_eq_spec]
      cases hfc : specFindToClose p n with
      | none => exact ih p
      | some h =>
        simp only []
        rw [ih ((p.setState h .closed).pushClosed tokId h),
          show (p.setState h .closed).pushClosed tokId h
              = { p.setState h .closed with
                  closedTokens := insertA (p.setState h .closed).closedTokens tokId
                    (((lookupA (p.setState h .closed).closedTokens tokId).getD []) ++ [h]) }
            from rfl,
          specUseLoop_override, setState_closedTokens]
        rfl

/-- C2: the source `Use` coincides with the operation written from the
spec's words — `BadState` (changing no token) on an `InUse` or `Closed`
pre-state, otherwise mark `InUse` and, for every name `n ≠ id.name` in
`names`, close at most one sibling chosen by the two-pass insertion-order
scan of `byName[n]` (first `Free`, else first `Allocated`, else skip — an
unknown name yields no token and no failure), pushing each closed sibling
into `closedBy[id]`. -/
theorem c2_use_refines_spec (p : Pool) (id : String) (names : List String) :
    p.UseOp id names = specUse p id names := by
  unfold Pool.UseOp specUse
  cases hf : Pool.findTok { p with dirty := true } id with
  | none => rfl
  | some pr =>
    obtain ⟨h, tk⟩ := pr
    by_cases hbad : tk.state = .inUse ∨ tk.state = .closed
    · simp only [if_pos hbad]
    · simp only [if_neg hbad]
      rw [useLoop_eq_specUseLoop, specUseLoop_closedTokens]

/-- A network service connection as seen by the token client: its id and
its labels. -/
structure Conn where
  connId : String
  labels : List (String × String)
deriving DecidableEq, Repr

/-- Modelled from the spec: the `tokenConfig` chain element behind
`tokenClient` (its `get`/`assign`/`release` are not among the provided
sources).  Per §4.3 it keeps a per-connection persisted configuration
entry; we model it as a table from connection id to the assigned token
id. -/
structure TokenConfig where
  entries : List (String × String)
deriving DecidableEq, Repr

/-- Modelled from the spec: reading the per-connection persisted entry;
empty string means no entry ("empty ⇒ new"). -/
def TokenConfig.get (c : TokenConfig) (conn : Conn) : String :=
  (lookupA c.entries conn.connId).getD ""

/-- Modelled from the spec: the name-keyed token assignment oracle.  `pick`
abstracts the choice of a token id for a name (returning `""` when no free
token exists); a successful assignment is persisted in the per-connection
entry and returned. -/
def TokenConfig.assign (c : TokenConfig) (pick : String → String → String)
    (name : String) (conn : Conn) : TokenConfig × String :=
  if pick name conn.connId = "" then (c, "")
  else
    ({ entries := insertA c.entries conn.connId (pick name conn.connId) },
      pick name conn.connId)

/-- Modelled from the spec: releasing the token drops the per-connection
persisted entry. -/
def TokenConfig.release (c : TokenConfig) (conn : Conn) : TokenConfig :=
  { entries := eraseA c.entries conn.connId }

/-- The result of one `tokenClient.Request`: the updated persisted
configuration, whether `release` was invoked, and whether the call
failed. -/
structure ReqResult where
  cfg : TokenConfig
  released : Bool
  failed : Bool
deriving DecidableEq, Repr

/-- `tokenClient.Request` of the `multitoken` element: records whether the
connection was established (the persisted entry read *before* the
assignment), assigns a token id when the `sriovToken` label is present
(failing with no downstream call when none is free), forwards downstream
(abstracted by `downstreamErr`), and on a downstream error releases the
token exactly when the connection was not previously established.  The
label/mechanism rewriting on the cloned request does not touch the
persisted state and is not modelled. -/
def tokenClientRequest (c : TokenConfig) (pick : String → String → String)
    (req : Conn) (downstreamErr : Bool) : ReqResult :=
  match lookupA req.labels "sriovToken" with
  | none => { cfg := c, released := false, failed := downstreamErr }
  | some tokenName =>
    if (c.assign pick tokenName req).2 = "" then
      { cfg := (c.assign pick tokenName req).1, released := false, failed := true }
    else
      if downstreamErr = true ∧ c.get req = "" then
        { cfg := ((c.assign pick tokenName req).1).release req, released := true,
          failed := true }
      else
        { cfg := (c.assign pick tokenName req).1, released := false,
          failed := downstreamErr }

/-- `tokenClient.Close`: release the token unconditionally, then forward. -/
def tokenClientClose (c : TokenConfig) (conn : Conn) : TokenConfig :=
  c.release conn

/-- C8: when a `Request` carrying an `sriovToken` label obtains a token id
and the downstream call fails, the client releases the token if and only
if the connection was not previously established — "previously
established" read from the persisted entry before the assignment; a
successful downstream call never releases; and `Close` releases
unconditionally. -/
theorem c8_token_release
    (c : TokenConfig) (pick : String → String → String) (req : Conn) (name : String)
    (hlabel : lookupA req.labels "sriovToken" = some name)
    (hassign : (c.assign pick name req).2 ≠ "") :
    ((tokenClientRequest c pick req true).released = true ↔ c.get req = "") ∧
    (c.get req = "" →
      lookupA (tokenClientRequest c pick req true).cfg.entries req.connId = none) ∧
    (c.get req ≠ "" →
      lookupA (tokenClientRequest c pick req true).cfg.entries req.connId
        = some (c.assign pick name req).2) ∧
    (tokenClientRequest c pick req false).released = false ∧
    (∀ conn : Conn, lookupA (tokenClientClose c conn).entries conn.connId = none) := by
  have hpick : pick name req.connId ≠ "" := by
    intro hp
    apply hassign
    unfold TokenConfig.assign
    rw [if_pos hp]
  have hassign_eq : c.assign pick name req
      = ({ entries := insertA c.entries req.connId (pick name req.connId) },
         pick name req.connId) := by
    unfold TokenConfig.assign
    rw [if_neg hpick]
  refine ⟨?_, ?_, ?_, ?_, ?_⟩
  · unfold tokenClientRequest
    rw [hlabel]
    simp only []
    rw [if_neg hassign]
    by_cases hest : c.get req = ""
    · have hcond : (True ∧ c.get req = "") := ⟨trivial, hest⟩
      rw [if_pos hcond]
      simp [hest]
    · have hcond : ¬(True ∧ c.get req = "") := fun hx => hest hx.2
      rw [if_neg hcond]
      simp [hest]
  · intro hest
    unfold tokenClientRequest
    rw [hlabel]
    simp only []
    rw [if_neg hassign]
    have hcond : (True ∧ c.get req = "") := ⟨trivial, hest⟩
    rw [if_pos hcond]
    exact lookupA_eraseA_self (c.assign pick name req).1.entries req.connId
  · intro hest
    unfold tokenClientRequest
    rw [hlabel]
    simp only []
    rw [if_neg hassign]
    have hcond : ¬(True ∧ c.get req = "") := fun hx => hest hx.2
    rw [if_neg hcond]
    show lookupA (c.assign pick name req).1.entries req.connId
      = some (c.assign pick name req).2
    rw [hassign_eq]
    exact lookupA_insertA_self c.entries req.connId (pick name req.connId)
  · unfold tokenClientRequest
    rw [hlabel]
    simp only []
    rw [if_neg hassign]
    have hcond : ¬(false = true ∧ c.get req = "") := fun hx => by simp at hx
    rw [if_neg hcond]
  · intro conn
    exact lookupA_eraseA_self c.entries conn.connId

/-- Witness for C8: a request for name `d1/intel` on a fresh (not
previously established) connection whose oracle yields token id `tok1`. -/
theorem c8_token_release_witness :
    (lookupA (Conn.mk "conn1" [("sriovToken", "d1/intel")]).labels "sriovToken"
        = some "d1/intel" ∧
     ((TokenConfig.mk []).assign (fun _ _ => "tok1") "d1/intel"
        (Conn.mk "conn1" [("sriovToken", "d1/intel")])).2 ≠ "") ∧
    (((tokenClientRequest (TokenConfig.mk []) (fun _ _ => "tok1")
        (Conn.mk "conn1" [("sriovToken", "d1/intel")]) true).released = true ↔
      (TokenConfig.mk []).get (Conn.mk "conn1" [("sriovToken", "d1/intel")]) = "") ∧
     ((TokenConfig.mk []).get (Conn.mk "conn1" [("sriovToken", "d1/intel")]) = "" →
      lookupA (tokenClientRequest (TokenConfig.mk []) (fun _ _ => "tok1")
        (Conn.mk "conn1" [("sriovToken", "d1/intel")]) true).cfg.entries "conn1" = none) ∧
     ((TokenConfig.mk []).get (Conn.mk "conn1" [("sriovToken", "d1/intel")]) ≠ "" →
      lookupA (tokenClientRequest (TokenConfig.mk []) (fun _ _ => "tok1")
        (Conn.mk "conn1" [("sriovToken", "d1/intel")]) true).cfg.entries "conn1"
        = some ((TokenConfig.mk []).assign (fun _ _ => "tok1") "d1/intel"
            (Conn.mk "conn1" [("sriovToken", "d1/intel")])).2) ∧
     (tokenClientRequest (TokenConfig.mk []) (fun _ _ => "tok1")
        (Conn.mk "conn1" [("sriovToken", "d1/intel")]) false).released = false ∧
     (∀ conn : Conn, lookupA (tokenClientClose (TokenConfig.mk []) conn).entries
        conn.connId = none)) :=
  ⟨⟨by decide, by decide⟩,
   c8_token_release (TokenConfig.mk []) (fun _ _ => "tok1")
     (Conn.mk "conn1" [("sriovToken", "d1/intel")]) "d1/intel" (by decide) (by decide)⟩
